import Mathlib

/-!
The package gomysql: a connection pool guarded by a circuit breaker.

Shallow embedding of `mysql.go` (package `gomysql`).

* Go `int64` and `time.Duration` values are `Int`; the three places where the
  source does arithmetic on them (`failCount++`, `regenTryes++`,
  `epoch - pool.trippedAt`) wrap modulo `2^64` through `wrap64`.
* `float64` is `F64`: the finite values `m * 2^e`, the two infinities and NaN,
  with the IEEE ordering (every comparison with NaN is false).
* `*sql.DB` is `Option Handle`, `none` being the nil pointer.
* The buffered channel `pool.conn` is `Chan`; an operation on it that cannot
  proceed in a single-caller run halts (`Halt.blocks`, `Halt.panics`).
* The outside world (`time.Now`, `sql.Open` + `Ping`, `Close`) is `World`:
  oracles indexed by the number of calls made so far, and a log of closed
  handles.
* The circuit breaker is the external package `rubyist/circuitbreaker`; it is
  a parameter `Breaker β` of every function that uses it.
* The events a breaker operation sends to the subscriber are appended to
  `MysqlPool.events`, in order. The goroutine started by `subscribe` is
  `listenNow`; the functions named `...Live` are the same code with that
  goroutine taking every event as soon as it is sent, and they record every
  value written to `pool.state`.
-/

namespace Gomysql

/-! ## Values -/

/-- Wrap an integer into the range of a Go `int64`. -/
def wrap64 (z : Int) : Int := (z + 2 ^ 63) % 2 ^ 64 - 2 ^ 63

/-- Model of Go `float64`: NaN, the infinities, and the finite values
`m * 2^e`. -/
inductive F64 where
  | nan : F64
  | negInf : F64
  | posInf : F64
  | fin (m : Int) (e : Int) : F64
  deriving DecidableEq, Repr

/-- The IEEE comparison `a < b`. -/
def F64.lt : F64 → F64 → Bool
  | .nan, _ => false
  | _, .nan => false
  | .negInf, .negInf => false
  | .negInf, _ => true
  | _, .negInf => false
  | .posInf, _ => false
  | .fin _ _, .posInf => true
  | .fin m1 e1, .fin m2 e2 =>
    decide (m1 * 2 ^ (e1 - min e1 e2).toNat < m2 * 2 ^ (e2 - min e1 e2).toNat)

/-- The IEEE comparison `a <= b`. -/
def F64.le : F64 → F64 → Bool
  | .nan, _ => false
  | _, .nan => false
  | .negInf, _ => true
  | _, .posInf => true
  | .posInf, _ => false
  | .fin _ _, .negInf => false
  | .fin m1 e1, .fin m2 e2 =>
    decide (m1 * 2 ^ (e1 - min e1 e2).toNat ≤ m2 * 2 ^ (e2 - min e1 e2).toNat)

/-- The constant `0.0`. -/
def F64.zero : F64 := .fin 0 0

/-- The constant `1.0`. -/
def F64.one : F64 := .fin 1 0

/-- Identity of an open `*sql.DB`; the nil pointer is `none : Option Handle`. -/
abbrev Handle := Nat

/-- Go `error` values that occur in the package. -/
inductive GoError where
  | new (msg : String) : GoError
  | breakerOpen : GoError
  | breakerTimeout : GoError
  | driver (code : Nat) : GoError
  | user (code : Nat) : GoError
  deriving DecidableEq, Repr

/-- The values written to `pool.state`: the zero value `""` and the package
variables `Success`, `Fail`, `Regenerate`. -/
inductive PoolState where
  | unset : PoolState
  | Success : PoolState
  | Fail : PoolState
  | Regenerate : PoolState
  deriving DecidableEq, Repr

/-- The events of `circuit.Breaker.Subscribe` that the listener switches on. -/
inductive BreakerEvent where
  | BreakerTripped : BreakerEvent
  | BreakerReset : BreakerEvent
  | BreakerFail : BreakerEvent
  | BreakerReady : BreakerEvent
  deriving DecidableEq, Repr

/-- Why a single-caller run does not return. -/
inductive Halt where
  | blocks : Halt
  | panics : Halt
  deriving DecidableEq, Repr

/-! ## Channel of connections -/

/-- A buffered `chan *sql.DB`. -/
structure Chan where
  cap : Int
  buf : List (Option Handle)
  closed : Bool
  deriving DecidableEq, Repr

/-- The call `make(chan *sql.DB, n)`: a run-time panic (`makechan: size out of
range`) when the size is negative or above `limit`, the largest size the
allocator of the running process accepts. -/
def Chan.make (limit n : Int) : Except Halt Chan :=
  if n < 0 ∨ limit < n then .error .panics else .ok { cap := n, buf := [], closed := false }

/-- The receive `<-c`: the oldest buffered value; on an empty channel the zero
value when closed, and no progress when open. -/
def Chan.recv (c : Chan) : Except Halt (Option Handle × Chan) :=
  match c.buf with
  | x :: rest => .ok (x, { c with buf := rest })
  | [] => if c.closed then .ok (none, c) else .error .blocks

/-- The send `c <- x`: panics on a closed channel, makes no progress on a full
one. -/
def Chan.send (c : Chan) (x : Option Handle) : Except Halt Chan :=
  if c.closed then .error .panics
  else if (c.buf.length : Int) < c.cap then .ok { c with buf := c.buf ++ [x] }
  else .error .blocks

/-- The call `close(c)`: closing twice panics. -/
def Chan.close (c : Chan) : Except Halt Chan :=
  if c.closed then .error .panics else .ok { c with closed := true }

/-- The zero value of the field `conn` before the first `make`; it is never
closed before `generatePool` replaces it. -/
def Chan.zero : Chan := { cap := 0, buf := [], closed := false }

/-! ## Outside world -/

/-- Oracles for the calls that leave the package. -/
structure World where
  /-- Reading of `time.Now().Unix()` at the k-th call. -/
  now : Nat → Int
  reads : Nat
  /-- Outcome of the k-th guarded `sql.Open` + `Ping`: a handle, or the error
  the breaker call returns (driver error or timeout). -/
  dial : Nat → Except GoError Handle
  dials : Nat
  /-- Handles on which `Close` has been called, oldest first. -/
  closedConns : List Handle
  /-- Largest channel size `make` accepts in this process. -/
  chanLimit : Int

/-! ## Circuit breaker (external package) -/

/-- The operations of `circuit.Breaker` the package calls, as functions on the
breaker state; each returns the events it sends to subscribers.
`Ready` and `Record` are the two halves of `Call`: the gate that decides
whether the wrapped function runs, and the bookkeeping once it has returned
(`true`: it returned nil within the timeout). -/
structure Breaker (β : Type) where
  NewRateBreaker : F64 → Int → β
  Tripped : β → Bool
  Trip : β → β × List BreakerEvent
  Reset : β → β × List BreakerEvent
  Fail : β → β × List BreakerEvent
  Ready : β → Bool × β × List BreakerEvent
  Record : β → Bool → β × List BreakerEvent

/-! ## Data model -/

/-- The struct `MysqlOptions`. -/
structure MysqlOptions where
  Url : String
  Host : String
  User : String
  Pass : String
  Dbas : String
  Poolsize : Int
  FailRate : F64
  Universe : Int
  TimeOut : Int
  Regenerate : Int
  deriving DecidableEq, Repr

/-- The struct `MysqlPool`; `events` is the subscription channel read by the
listener goroutine. -/
structure MysqlPool (β : Type) where
  cb : β
  conn : Chan
  state : PoolState
  trippedAt : Int
  failCount : Int
  regenTryes : Int
  Configs : MysqlOptions
  events : List BreakerEvent

/-- What one call of `Execute` returns and leaves behind; `invoked` lists the
handles the callback was started on. -/
structure ExecResult (β : Type) where
  err : Option GoError
  pool : MysqlPool β
  world : World
  invoked : List Handle

/-! ## Functions of `mysql.go` -/

/-- The function `configValidate`; `env` is `os.Getenv("DATABASE_URL")`. -/
def configValidate (options : MysqlOptions) (env : String) : MysqlOptions := Id.run do
  let mut options := options
  let mut urlConnect : String := ""
  if options.Host ≠ "" then
    urlConnect := "user=" ++ options.User ++ " dbname=" ++ options.Dbas ++ " host="
      ++ options.Host ++ " password=" ++ options.Pass
  if options.Url ≠ "" ∧ urlConnect = "" then
    urlConnect := options.Url
  if urlConnect = "" then
    urlConnect := env
  options := { options with Url := urlConnect }
  if F64.lt options.FailRate F64.zero then
    options := { options with FailRate := F64.zero }
  if F64.lt F64.one options.FailRate then
    options := { options with FailRate := F64.one }
  if options.Poolsize ≤ 0 then
    options := { options with Poolsize := 5 }
  if options.Universe ≤ options.Poolsize then
    options := { options with Universe := options.Poolsize }
  if options.TimeOut < 0 then
    options := { options with TimeOut := 0 }
  if options.Regenerate ≤ 0 then
    options := { options with Regenerate := 1000000000 * 3 }
  return options

/-- The method `State`. -/
def State {β : Type} (pool : MysqlPool β) : PoolState := pool.state

/-- The method `GetUrl`. -/
def GetUrl {β : Type} (pool : MysqlPool β) : String := pool.Configs.Url

/-- The method `setTrippedTime`. -/
def setTrippedTime {β : Type} (pool : MysqlPool β) (w : World) : MysqlPool β × World :=
  if pool.trippedAt = 0 then
    ({ pool with trippedAt := w.now w.reads }, { w with reads := w.reads + 1 })
  else (pool, w)

/-- The method `connect`: the connection (nil on failure), the error, and the
pool and world after the call. -/
def connect {β : Type} (B : Breaker β) (pool : MysqlPool β) (w : World) :
    Option Handle × Option GoError × MysqlPool β × World :=
  if pool.Configs.Url = "" then (none, some (.new "can't find url"), pool, w)
  else if B.Tripped pool.cb then (none, some (.new "unavailable service"), pool, w)
  else
    let g := B.Ready pool.cb
    if g.1 then
      let w1 := { w with dials := w.dials + 1 }
      match w.dial w.dials with
      | .ok h =>
        let r := B.Record g.2.1 true
        (some h, none, { pool with cb := r.1, events := pool.events ++ g.2.2 ++ r.2 }, w1)
      | .error e =>
        let r := B.Record g.2.1 false
        (none, some e, { pool with cb := r.1, events := pool.events ++ g.2.2 ++ r.2 }, w1)
    else
      (none, some .breakerOpen, { pool with cb := g.2.1, events := pool.events ++ g.2.2 }, w)

/-- The loop of `generatePool`, with the number of iterations left. The first
component is `some err` when the loop left the function early. -/
def generateLoop {β : Type} (B : Breaker β) (failFirst : Bool) :
    Nat → MysqlPool β → World → Except Halt (Option GoError × MysqlPool β × World)
  | 0, pool, w => .ok (none, pool, w)
  | n + 1, pool, w =>
    let c := connect B pool w
    match c.2.1 with
    | some e =>
      if failFirst then
        let t := setTrippedTime c.2.2.1 c.2.2.2
        .ok (some e, t.1, t.2)
      else
        let pool1 := { c.2.2.1 with failCount := wrap64 (c.2.2.1.failCount + 1) }
        match pool1.conn.send c.1 with
        | .error h => .error h
        | .ok ch => generateLoop B failFirst n { pool1 with conn := ch } c.2.2.2
    | none =>
      match c.2.2.1.conn.send c.1 with
      | .error h => .error h
      | .ok ch => generateLoop B failFirst n { c.2.2.1 with conn := ch } c.2.2.2

/-- The function `generatePool`. -/
def generatePool {β : Type} (B : Breaker β) (pool : MysqlPool β) (failFirst : Bool)
    (w : World) : Except Halt (Option GoError × MysqlPool β × World) :=
  match Chan.make w.chanLimit pool.Configs.Poolsize with
  | .error h => .error h
  | .ok ch =>
    match generateLoop B failFirst pool.Configs.Poolsize.toNat { pool with conn := ch } w with
    | .error h => .error h
    | .ok (some e, pool1, w1) => .ok (some e, pool1, w1)
    | .ok (none, pool1, w1) =>
      if B.Tripped pool1.cb then
        let t := setTrippedTime pool1 w1
        .ok (some (.new "failed to create connection pool"), t.1, t.2)
      else .ok (none, { pool1 with state := .Success }, w1)

/-- The loop of `clean`, with the number of iterations left. -/
def drain : Nat → Chan → World → Except Halt (Chan × World)
  | 0, c, w => .ok (c, w)
  | n + 1, c, w =>
    match c.recv with
    | .error h => .error h
    | .ok (some h, c1) => drain n c1 { w with closedConns := w.closedConns ++ [h] }
    | .ok (none, c1) => drain n c1 w

/-- The method `clean`. -/
def clean {β : Type} (pool : MysqlPool β) (w : World) : Except Halt (MysqlPool β × World) :=
  let d : Except Halt (Chan × World) :=
    if pool.regenTryes = 0 then drain pool.Configs.Poolsize.toNat pool.conn w
    else .ok (pool.conn, w)
  match d with
  | .error h => .error h
  | .ok (c, w1) =>
    match c.close with
    | .error h => .error h
    | .ok c1 => .ok ({ pool with conn := c1 }, w1)

/-- The method `reset`. -/
def reset {β : Type} (B : Breaker β) (pool : MysqlPool β) (w : World) :
    Except Halt (MysqlPool β × World) :=
  match clean pool w with
  | .error h => .error h
  | .ok (pool1, w1) =>
    let r := B.Reset pool1.cb
    .ok ({ pool1 with cb := r.1, events := pool1.events ++ r.2, failCount := 0, trippedAt := 0 },
      w1)

/-- The method `regenerate`. -/
def regenerate {β : Type} (B : Breaker β) (pool : MysqlPool β) (w : World) :
    Except Halt (MysqlPool β × World) :=
  let epoch := w.now w.reads
  let w0 := { w with reads := w.reads + 1 }
  let diference := wrap64 (epoch - pool.trippedAt)
  let regentime := Int.tdiv pool.Configs.Regenerate 1000000000
  if diference ≥ regentime ∧ State pool = .Fail then
    let pool1 := { pool with regenTryes := wrap64 (pool.regenTryes + 1) }
    match reset B pool1 w0 with
    | .error h => .error h
    | .ok (pool2, w2) =>
      match generatePool B pool2 true w2 with
      | .error h => .error h
      | .ok (some _, pool3, w3) =>
        let r := B.Trip pool3.cb
        .ok (setTrippedTime { pool3 with cb := r.1, events := pool3.events ++ r.2 } w3)
      | .ok (none, pool3, w3) => .ok ({ pool3 with regenTryes := 0 }, w3)
  else .ok (pool, w0)

/-- The method `popConx`. -/
def popConx {β : Type} (pool : MysqlPool β) : Except Halt (Option Handle × MysqlPool β) :=
  match pool.conn.recv with
  | .error h => .error h
  | .ok (x, c) => .ok (x, { pool with conn := c })

/-- The method `pushConx`. -/
def pushConx {β : Type} (pool : MysqlPool β) (conx : Option Handle) :
    Except Halt (MysqlPool β) :=
  match pool.conn.send conx with
  | .error h => .error h
  | .ok c => .ok { pool with conn := c }

/-- The method `Execute`. `inTime` tells whether the callback, once started by
the breaker, returns before the timeout; the closure handed to the breaker
always returns nil, so that is what the breaker records. When the timeout
fires first, `err` has not been assigned yet and nil is returned. -/
def Execute {β : Type} (B : Breaker β) (pool : MysqlPool β) (w : World)
    (callback : Handle → Option GoError) (inTime : Bool) : Except Halt (ExecResult β) :=
  if State pool = .Fail then
    match regenerate B pool w with
    | .error h => .error h
    | .ok (pool1, w1) =>
      .ok { err := some (.new "unavailable service"), pool := pool1, world := w1, invoked := [] }
  else if State pool = .Regenerate then
    .ok { err := some (.new "unavailable service"), pool := pool, world := w, invoked := [] }
  else
    match popConx pool with
    | .error h => .error h
    | .ok (none, pool1) =>
      let f := B.Fail pool1.cb
      .ok { err := some (.new "empty connection"),
            pool := { pool1 with cb := f.1, events := pool1.events ++ f.2 },
            world := w, invoked := [] }
    | .ok (some c, pool1) =>
      let g := B.Ready pool1.cb
      let ran : Bool := g.1
      let err : Option GoError := if ran && inTime then callback c else none
      let r := if ran then B.Record g.2.1 inTime else (g.2.1, [])
      let pool2 := { pool1 with cb := r.1, events := pool1.events ++ g.2.2 ++ r.2 }
      match pushConx pool2 (some c) with
      | .error h => .error h
      | .ok pool3 =>
        .ok { err := err, pool := pool3, world := w, invoked := if ran then [c] else [] }

/-- The function `InitPool`; `env` is `os.Getenv("DATABASE_URL")`. The options
are copied into the pool before `configValidate` normalizes the local
copy. -/
def InitPool {β : Type} (B : Breaker β) (opts : MysqlOptions) (env : String) (w : World) :
    Except Halt (MysqlPool β × Option GoError × World) :=
  let Configs := opts
  let _opts := configValidate opts env
  let pool : MysqlPool β :=
    { cb := B.NewRateBreaker Configs.FailRate Configs.Universe,
      conn := Chan.zero, state := .unset, trippedAt := 0, failCount := 0, regenTryes := 0,
      Configs := Configs, events := [] }
  match generatePool B pool false w with
  | .error h => .error h
  | .ok (some e, pool1, w1) => .ok ({ pool1 with state := .Fail }, some e, w1)
  | .ok (none, pool1, w1) => .ok (pool1, none, w1)

/-! ## The pool with its listener running -/

/-- A pool and the values written to `pool.state` since observation began,
latest first. -/
structure Live (β : Type) where
  pool : MysqlPool β
  seen : List PoolState

/-- An assignment to `pool.state`. -/
def Live.write {β : Type} (l : Live β) (s : PoolState) : Live β :=
  { pool := { l.pool with state := s }, seen := s :: l.seen }

/-- The goroutine of `subscribe` receiving the given events in order: the
switch writes Fail on Tripped, Regenerate on Reset, Success on Ready, and only
logs on Fail. -/
def listenNow {β : Type} : List BreakerEvent → Live β → Live β
  | [], l => l
  | e :: es, l =>
    match e with
    | .BreakerTripped => listenNow es (l.write .Fail)
    | .BreakerReset => listenNow es (l.write .Regenerate)
    | .BreakerFail => listenNow es l
    | .BreakerReady => listenNow es (l.write .Success)

/-- The goroutine of `subscribe` emptying the subscription channel. -/
def flush {β : Type} (l : Live β) : Live β :=
  listenNow l.pool.events { l with pool := { l.pool with events := [] } }

/-- The loop of `generatePool`, the listener taking the events of each
`connect` before the loop goes on. -/
def generateLoopLive {β : Type} (B : Breaker β) (failFirst : Bool) :
    Nat → Live β → World → Except Halt (Option GoError × Live β × World)
  | 0, l, w => .ok (none, l, w)
  | n + 1, l, w =>
    let c := connect B l.pool w
    let l1 := flush { l with pool := c.2.2.1 }
    match c.2.1 with
    | some e =>
      if failFirst then
        let t := setTrippedTime l1.pool c.2.2.2
        .ok (some e, { l1 with pool := t.1 }, t.2)
      else
        let pool1 := { l1.pool with failCount := wrap64 (l1.pool.failCount + 1) }
        match pool1.conn.send c.1 with
        | .error h => .error h
        | .ok ch =>
          generateLoopLive B failFirst n { l1 with pool := { pool1 with conn := ch } } c.2.2.2
    | none =>
      match l1.pool.conn.send c.1 with
      | .error h => .error h
      | .ok ch =>
        generateLoopLive B failFirst n { l1 with pool := { l1.pool with conn := ch } } c.2.2.2

/-- The function `generatePool` with the listener running. -/
def generatePoolLive {β : Type} (B : Breaker β) (l : Live β) (failFirst : Bool) (w : World) :
    Except Halt (Option GoError × Live β × World) :=
  match Chan.make w.chanLimit l.pool.Configs.Poolsize with
  | .error h => .error h
  | .ok ch =>
    match generateLoopLive B failFirst l.pool.Configs.Poolsize.toNat
        { l with pool := { l.pool with conn := ch } } w with
    | .error h => .error h
    | .ok (some e, l1, w1) => .ok (some e, l1, w1)
    | .ok (none, l1, w1) =>
      if B.Tripped l1.pool.cb then
        let t := setTrippedTime l1.pool w1
        .ok (some (.new "failed to create connection pool"), { l1 with pool := t.1 }, t.2)
      else .ok (none, l1.write .Success, w1)

/-- The method `reset` with the listener running. -/
def resetLive {β : Type} (B : Breaker β) (l : Live β) (w : World) :
    Except Halt (Live β × World) :=
  match clean l.pool w with
  | .error h => .error h
  | .ok (pool1, w1) =>
    let r := B.Reset pool1.cb
    let l1 := flush { l with pool := { pool1 with cb := r.1, events := pool1.events ++ r.2 } }
    .ok ({ l1 with pool := { l1.pool with failCount := 0, trippedAt := 0 } }, w1)

/-- The method `regenerate` with the listener running. -/
def regenerateLive {β : Type} (B : Breaker β) (l : Live β) (w : World) :
    Except Halt (Live β × World) :=
  let epoch := w.now w.reads
  let w0 := { w with reads := w.reads + 1 }
  let diference := wrap64 (epoch - l.pool.trippedAt)
  let regentime := Int.tdiv l.pool.Configs.Regenerate 1000000000
  if diference ≥ regentime ∧ State l.pool = .Fail then
    let pool1 := { l.pool with regenTryes := wrap64 (l.pool.regenTryes + 1) }
    match resetLive B { l with pool := pool1 } w0 with
    | .error h => .error h
    | .ok (l2, w2) =>
      match generatePoolLive B l2 true w2 with
      | .error h => .error h
      | .ok (some _, l3, w3) =>
        let r := B.Trip l3.pool.cb
        let l4 := flush { l3 with pool := { l3.pool with cb := r.1,
                                                         events := l3.pool.events ++ r.2 } }
        let t := setTrippedTime l4.pool w3
        .ok ({ l4 with pool := t.1 }, t.2)
      | .ok (none, l3, w3) => .ok ({ l3 with pool := { l3.pool with regenTryes := 0 } }, w3)
  else .ok (l, w0)

/-- The method `Execute` with the listener running; the error returned, the
pool and the world. -/
def ExecuteLive {β : Type} (B : Breaker β) (l : Live β) (w : World)
    (callback : Handle → Option GoError) (inTime : Bool) :
    Except Halt (Option GoError × Live β × World) :=
  if State l.pool = .Fail then
    match regenerateLive B l w with
    | .error h => .error h
    | .ok (l1, w1) => .ok (some (.new "unavailable service"), l1, w1)
  else if State l.pool = .Regenerate then
    .ok (some (.new "unavailable service"), l, w)
  else
    match popConx l.pool with
    | .error h => .error h
    | .ok (none, pool1) =>
      let f := B.Fail pool1.cb
      .ok (some (.new "empty connection"),
        flush { l with pool := { pool1 with cb := f.1, events := pool1.events ++ f.2 } }, w)
    | .ok (some c, pool1) =>
      let g := B.Ready pool1.cb
      let ran : Bool := g.1
      let err : Option GoError := if ran && inTime then callback c else none
      let r := if ran then B.Record g.2.1 inTime else (g.2.1, [])
      let l2 := flush { l with pool := { pool1 with cb := r.1,
                                                    events := pool1.events ++ g.2.2 ++ r.2 } }
      match pushConx l2.pool (some c) with
      | .error h => .error h
      | .ok pool3 => .ok (err, { l2 with pool := pool3 }, w)

/-- The function `InitPool` with the listener running (`subscribe` has started
it before the build). -/
def InitPoolLive {β : Type} (B : Breaker β) (opts : MysqlOptions) (env : String) (w : World) :
    Except Halt (Live β × Option GoError × World) :=
  let Configs := opts
  let _opts := configValidate opts env
  let pool : MysqlPool β :=
    { cb := B.NewRateBreaker Configs.FailRate Configs.Universe,
      conn := Chan.zero, state := .unset, trippedAt := 0, failCount := 0, regenTryes := 0,
      Configs := Configs, events := [] }
  match generatePoolLive B { pool := pool, seen := [] } false w with
  | .error h => .error h
  | .ok (some e, l1, w1) => .ok (l1.write .Fail, some e, w1)
  | .ok (none, l1, w1) => .ok (l1, none, w1)

/-- A sequence of calls of `Execute`, oldest first, each with its callback and
whether that callback returns in time. -/
def executeAll {β : Type} (B : Breaker β) :
    List ((Handle → Option GoError) × Bool) → Live β × World → Except Halt (Live β × World)
  | [], s => .ok s
  | call :: calls, s =>
    match ExecuteLive B s.1 s.2 call.1 call.2 with
    | .error h => .error h
    | .ok (_, l1, w1) => executeAll B calls (l1, w1)

/-- The call `InitPool` followed by a sequence of calls of `Execute`, the
listener running throughout; `seen` starts with the state `InitPool` returned
and lists every value written to the state after that. -/
def runLive {β : Type} (B : Breaker β) (opts : MysqlOptions) (env : String) (w : World)
    (calls : List ((Handle → Option GoError) × Bool)) : Except Halt (Live β × World) :=
  match InitPoolLive B opts env w with
  | .error h => .error h
  | .ok (l, _, w1) => executeAll B calls ({ l with seen := [l.pool.state] }, w1)

/-- The edges of the cycle Success -> Fail -> Regenerate -> Success. -/
def cycleEdge : PoolState → PoolState → Bool
  | .Success, .Fail => true
  | .Fail, .Regenerate => true
  | .Regenerate, .Success => true
  | _, _ => false

/-- The edges of the cycle, and the edge Regenerate -> Fail. -/
def stateEdge (old new : PoolState) : Bool :=
  cycleEdge old new || (old == .Regenerate && new == .Fail)

/-- A breaker whose events follow its operations: `Reset` sends Reset, `Trip`
sends Tripped, a recorded failure sends Fail and may send Tripped, and the gate
of a call and a recorded success send nothing that writes the state. -/
def Breaker.Orderly {β : Type} (B : Breaker β) : Prop :=
  (∀ b, (B.Reset b).2 = [.BreakerReset]) ∧
  (∀ b, (B.Trip b).2 = [.BreakerTripped]) ∧
  (∀ b, ∀ e ∈ (B.Fail b).2, e = .BreakerFail ∨ e = .BreakerTripped) ∧
  (∀ b, ∀ e ∈ (B.Record b false).2, e = .BreakerFail ∨ e = .BreakerTripped) ∧
  (∀ b, ∀ e ∈ (B.Ready b).2.2, e = .BreakerFail) ∧
  (∀ b, ∀ e ∈ (B.Record b true).2, e = .BreakerFail)

/-- A world where the first two connection attempts fail and every later one
succeeds. -/
def recoveringWorld : World :=
  { now := fun k => 1000 + (k : Int), reads := 0,
    dial := fun k => if k < 2 then .error (.driver 2003) else .ok (k + 1),
    dials := 0, closedConns := [], chanLimit := 1000000 }

/-- The record of a pool past its first build: the current state is one of
Success, Fail, Regenerate and is the latest value seen, no value seen is the
zero value, and any two consecutive values seen are equal or joined by an
edge of `stateEdge`. -/
def Tidy (s : PoolState) (seen : List PoolState) : Prop :=
  s ≠ .unset ∧ seen.head? = some s ∧ (∀ x ∈ seen, x ≠ .unset) ∧
    List.Chain' (fun new old => new = old ∨ stateEdge old new = true) seen

/-- Run of `k` consecutive calls of `Execute` with the same callback, each
completing in time. -/
def executeTimes {β : Type} (B : Breaker β) (callback : Handle → Option GoError) :
    Nat → MysqlPool β × World → Except Halt (MysqlPool β × World)
  | 0, s => .ok s
  | k + 1, s =>
    match Execute B s.1 s.2 callback true with
    | .error h => .error h
    | .ok r => executeTimes B callback k (r.pool, r.world)

/-- The invariants of a pool between two calls: the queue is an open channel,
the configured size is one `make` accepts in the running process, and the
retry counter is a count below the `int64` maximum. -/
def MysqlPool.Usable {β : Type} (pool : MysqlPool β) (w : World) : Prop :=
  pool.conn.closed = false ∧ 0 ≤ pool.Configs.Poolsize ∧
    pool.Configs.Poolsize ≤ w.chanLimit ∧
    0 ≤ pool.regenTryes ∧ pool.regenTryes < 2 ^ 63 - 1

/-! ## A rate breaker -/

/-- Modelled from the spec: the state of the rate breaker of the external
package `rubyist/circuitbreaker`: threshold, window size (universe), the
outcomes in the window (newest first, `true` a failure) and the tripped
flag. -/
structure RateState where
  rate : F64
  size : Int
  window : List Bool
  isTripped : Bool
  deriving DecidableEq, Repr

/-- Modelled from the spec: the trip test of the rate breaker, whether `fails`
failures among `samples` outcomes are a failure rate that exceeds the
threshold. -/
def exceeds (fails samples : Nat) : F64 → Bool
  | .nan => false
  | .posInf => false
  | .negInf => decide (0 < samples)
  | .fin m e =>
    decide (0 < samples ∧
      (fails : Int) * 2 ^ (-e).toNat > m * 2 ^ e.toNat * (samples : Int))

/-- Modelled from the spec: the rolling window of the rate breaker; record one
outcome, dropping what falls out of the window. -/
def RateState.push (s : RateState) (failure : Bool) : RateState :=
  { s with window := (failure :: s.window).take s.size.toNat }

/-- Modelled from the spec: the operation `Fail` of the rate breaker; it
records a failure, sends the Fail event, and trips when the failure rate over
the window exceeds the threshold. -/
def RateState.fail (s : RateState) : RateState × List BreakerEvent :=
  let s1 := s.push true
  if exceeds (s1.window.count true) s1.window.length s1.rate then
    ({ s1 with isTripped := true }, [.BreakerFail, .BreakerTripped])
  else (s1, [.BreakerFail])

/-- Modelled from the spec: the breaker of the external package
`rubyist/circuitbreaker`, which is not part of the repository. It tracks call
outcomes over a rolling window of size universe, trips open when the failure
rate over that window exceeds the configured threshold, exposes trip and reset,
the guarded call (here its gate `Ready`, closed while tripped, and its
bookkeeping `Record`), and sends the events Tripped, Reset and Fail. -/
def rateBreaker : Breaker RateState where
  NewRateBreaker := fun rate size =>
    { rate := rate, size := size, window := [], isTripped := false }
  Tripped := fun s => s.isTripped
  Trip := fun s => ({ s with isTripped := true }, [.BreakerTripped])
  Reset := fun s => ({ s with isTripped := false, window := [] }, [.BreakerReset])
  Fail := RateState.fail
  Ready := fun s => (!s.isTripped, s, [])
  Record := fun s ok => if ok then (s.push false, []) else s.fail

/-! ## Concrete inputs -/

/-- A world where every connection attempt succeeds (the k-th one yields the
handle `k + 1`), the clock reads 1000 seconds plus one per reading, and `make`
accepts up to a million slots. -/
def reachableWorld : World :=
  { now := fun k => 1000 + (k : Int), reads := 0, dial := fun k => .ok (k + 1), dials := 0,
    closedConns := [], chanLimit := 1000000 }

/-- A world where every connection attempt fails with a driver error. -/
def unreachableWorld : World :=
  { now := fun k => 1000 + (k : Int), reads := 0, dial := fun _ => .error (.driver 2003),
    dials := 0, closedConns := [], chanLimit := 1000000 }

/-- Options naming the target by URL. -/
def urlOptions (poolsize : Int) (failRate : F64) (window regenerate : Int) : MysqlOptions :=
  { Url := "tcp(db:3306)/app", Host := "", User := "", Pass := "", Dbas := "",
    Poolsize := poolsize, FailRate := failRate, Universe := window, TimeOut := 1000000000,
    Regenerate := regenerate }

/-- Options naming the target by host, user, password and database. -/
def hostOptions (poolsize : Int) : MysqlOptions :=
  { Url := "", Host := "db", User := "app", Pass := "secret", Dbas := "shop",
    Poolsize := poolsize, FailRate := .fin 1 (-2), Universe := poolsize, TimeOut := 1000000000,
    Regenerate := 3000000000 }

/-- Options naming no target at all. -/
def noTargetOptions (poolsize : Int) : MysqlOptions :=
  { Url := "", Host := "", User := "", Pass := "", Dbas := "",
    Poolsize := poolsize, FailRate := .fin 1 (-2), Universe := poolsize, TimeOut := 1000000000,
    Regenerate := 3000000000 }

/-- A pool in the given state over the given queue, with a fresh breaker. -/
def poolWith (state : PoolState) (queue : List (Option Handle)) (trippedAt regenTryes : Int)
    (opts : MysqlOptions) : MysqlPool RateState :=
  { cb := rateBreaker.NewRateBreaker opts.FailRate opts.Universe,
    conn := { cap := opts.Poolsize, buf := queue, closed := false },
    state := state, trippedAt := trippedAt, failCount := 0, regenTryes := regenTryes,
    Configs := opts, events := [] }

/-- A callback that does nothing and returns no error. -/
def noop : Handle → Option GoError := fun _ => none

/-- A callback that fails with a caller error. -/
def failing : Handle → Option GoError := fun _ => some (.user 7)

/-- Options with every numeric field out of range: size 0, rate 3.0, window
-2, timeout -1 ns, interval 0. -/
def rawOptions : MysqlOptions :=
  { Url := "tcp(db:3306)/app", Host := "", User := "", Pass := "", Dbas := "",
    Poolsize := 0, FailRate := .fin 3 0, Universe := -2, TimeOut := -1, Regenerate := 0 }

/-! ## Lemmas on single calls -/

/-- A count below the `int64` maximum is incremented without wrapping. -/
theorem wrap64_succ (z : Int) (h0 : 0 ≤ z) (h1 : z < 2 ^ 63 - 1) : wrap64 (z + 1) = z + 1 := by
  unfold wrap64
  omega

/-- A receive from a channel that buffers a value yields the oldest one. -/
theorem Chan.recv_cons (c : Chan) (x : Option Handle) (rest : List (Option Handle))
    (h : c.buf = x :: rest) : c.recv = .ok (x, { c with buf := rest }) := by
  unfold Chan.recv
  rw [h]

/-- Outside the time gate, or outside state Fail, `regenerate` only reads the
clock. -/
theorem regenerate_skip {β : Type} (B : Breaker β) (pool : MysqlPool β) (w : World)
    (h : ¬ (wrap64 (w.now w.reads - pool.trippedAt) ≥ Int.tdiv pool.Configs.Regenerate 1000000000
      ∧ State pool = .Fail)) :
    regenerate B pool w = .ok (pool, { w with reads := w.reads + 1 }) := by
  unfold regenerate
  simp only [h, if_false]

/-! ## C1 -/

/-- C1. In state Success, with a valid handle at the head of the queue and a
guarded call that runs the callback to completion within the timeout, `Execute`
returns, has invoked the callback exactly once, on that handle, returns exactly
what the callback returned (nil included), and has put the handle back, at the
back of the queue, whether or not the callback failed; capacity and state are
as before. -/
theorem Execute_returns_callback_error {β : Type} (B : Breaker β) (pool : MysqlPool β)
    (w : World) (callback : Handle → Option GoError) (c : Handle)
    (rest : List (Option Handle))
    (hstate : State pool = .Success)
    (hqueue : pool.conn.buf = some c :: rest)
    (hopen : pool.conn.closed = false)
    (hcap : (pool.conn.buf.length : Int) ≤ pool.conn.cap)
    (hrun : (B.Ready pool.cb).1 = true) :
    ∃ r, Execute B pool w callback true = .ok r ∧ r.invoked = [c] ∧ r.err = callback c ∧
      r.pool.conn.buf = rest ++ [some c] ∧ r.pool.conn.cap = pool.conn.cap ∧
      r.pool.conn.closed = false ∧ State r.pool = .Success := by
  have hlen : (rest.length : Int) < pool.conn.cap := by
    rw [hqueue] at hcap
    simp only [List.length_cons, Nat.cast_add, Nat.cast_one] at hcap
    omega
  simp only [State] at hstate
  simp only [Execute, State, hstate, popConx, Chan.recv_cons _ _ _ hqueue, pushConx, Chan.send,
    hopen, hrun, hlen, Bool.true_and, if_true, if_false]
  simp

/-- C1, at a pool of two connections and a callback that fails: the error comes
back unchanged and the queue is rotated. -/
theorem Execute_returns_callback_error_witness :
    ∃ r, Execute rateBreaker
        (poolWith .Success [some 1, some 2] 0 0 (urlOptions 2 (.fin 1 (-2)) 2 3000000000))
        reachableWorld failing true = .ok r ∧ r.invoked = [1] ∧ r.err = failing 1 ∧
      r.pool.conn.buf = [some 2] ++ [some 1] ∧ r.pool.conn.cap = 2 ∧
      r.pool.conn.closed = false ∧ State r.pool = .Success :=
  Execute_returns_callback_error rateBreaker
    (poolWith .Success [some 1, some 2] 0 0 (urlOptions 2 (.fin 1 (-2)) 2 3000000000))
    reachableWorld failing 1 [some 2] rfl rfl rfl (by decide) rfl


/-- What `connect` leaves untouched: every pool field but the breaker and its
pending events, and every part of the world but the count of attempts. -/
theorem connect_frame {β : Type} (B : Breaker β) (pool : MysqlPool β) (w : World) :
    (connect B pool w).2.2.1.conn = pool.conn ∧
    (connect B pool w).2.2.1.state = pool.state ∧
    (connect B pool w).2.2.1.trippedAt = pool.trippedAt ∧
    (connect B pool w).2.2.1.failCount = pool.failCount ∧
    (connect B pool w).2.2.1.regenTryes = pool.regenTryes ∧
    (connect B pool w).2.2.1.Configs = pool.Configs ∧
    (connect B pool w).2.2.2.now = w.now ∧
    (connect B pool w).2.2.2.reads = w.reads ∧
    (connect B pool w).2.2.2.dial = w.dial ∧
    (connect B pool w).2.2.2.closedConns = w.closedConns := by
  unfold connect
  by_cases hu : pool.Configs.Url = ""
  · simp [hu]
  · by_cases ht : B.Tripped pool.cb = true
    · simp [hu, ht]
    · by_cases hg : (B.Ready pool.cb).1 = true
      · cases hd : w.dial w.dials <;> simp [hu, ht, hg, hd]
      · simp [hu, ht, hg]

/-- The method `setTrippedTime` touches only `trippedAt` and the clock. -/
theorem setTrippedTime_frame {β : Type} (pool : MysqlPool β) (w : World) :
    (setTrippedTime pool w).1.conn = pool.conn ∧
    (setTrippedTime pool w).1.state = pool.state ∧
    (setTrippedTime pool w).1.cb = pool.cb ∧
    (setTrippedTime pool w).1.events = pool.events ∧
    (setTrippedTime pool w).1.failCount = pool.failCount ∧
    (setTrippedTime pool w).1.regenTryes = pool.regenTryes ∧
    (setTrippedTime pool w).1.Configs = pool.Configs ∧
    (setTrippedTime pool w).2.now = w.now ∧
    (setTrippedTime pool w).2.dial = w.dial ∧
    (setTrippedTime pool w).2.dials = w.dials ∧
    (setTrippedTime pool w).2.closedConns = w.closedConns := by
  unfold setTrippedTime
  split_ifs <;> simp

/-- The loop of `generatePool`, when it returns, has left state, options, retry
counter, channel capacity and open flag, and the closed handles as they
were. -/
theorem generateLoop_frame {β : Type} (B : Breaker β) (failFirst : Bool) :
    ∀ (n : Nat) (pool : MysqlPool β) (w : World) (r : Option GoError × MysqlPool β × World),
      generateLoop B failFirst n pool w = .ok r →
      r.2.1.state = pool.state ∧ r.2.1.Configs = pool.Configs ∧
      r.2.1.regenTryes = pool.regenTryes ∧ r.2.1.conn.cap = pool.conn.cap ∧
      r.2.1.conn.closed = pool.conn.closed ∧ r.2.2.closedConns = w.closedConns ∧
      r.2.2.now = w.now := by
  intro n
  induction n with
  | zero =>
    intro pool w r h
    simp only [generateLoop, Except.ok.injEq] at h
    subst h
    simp
  | succ n ih =>
    intro pool w r h
    obtain ⟨hc1, hc2, hc3, hc4, hc5, hc6, hc7, hc8, hc9, hc10⟩ := connect_frame B pool w
    unfold generateLoop at h
    simp only at h
    split at h
    · split_ifs at h with hff
      · simp only [Except.ok.injEq] at h
        obtain ⟨ht1, ht2, ht3, ht4, ht5, ht6, ht7, ht8, ht9, ht10, ht11⟩ :=
          setTrippedTime_frame (connect B pool w).2.2.1 (connect B pool w).2.2.2
        subst h
        simp only [ht1, ht2, ht6, ht7, ht8, ht11, hc1, hc2, hc5, hc6, hc7, hc10, and_self]
      · split at h
        · exact absurd h (by simp)
        · rename_i ch hsend
          have := ih _ _ r h
          simp only [Chan.send] at hsend
          split_ifs at hsend with hcl hlt
          simp only [Except.ok.injEq] at hsend
          subst hsend
          simp only [hc1, hc2, hc5, hc6, hc7, hc10] at this hcl ⊢
          simp only [this, hcl, and_self]
    · split at h
      · exact absurd h (by simp)
      · rename_i ch hsend
        have := ih _ _ r h
        simp only [Chan.send] at hsend
        split_ifs at hsend with hcl hlt
        simp only [Except.ok.injEq] at hsend
        subst hsend
        simp only [hc1, hc2, hc5, hc6, hc7, hc10] at this hcl ⊢
        simp only [this, hcl, and_self]


/-- The loop of `generatePool` returns when the channel is open and has room
for the slots still to fill. -/
theorem generateLoop_total {β : Type} (B : Breaker β) (failFirst : Bool) :
    ∀ (n : Nat) (pool : MysqlPool β) (w : World), pool.conn.closed = false →
      (pool.conn.buf.length : Int) + (n : Int) ≤ pool.conn.cap →
      ∃ r, generateLoop B failFirst n pool w = .ok r := by
  intro n
  induction n with
  | zero =>
    intro pool w _ _
    exact ⟨_, rfl⟩
  | succ n ih =>
    intro pool w hopen hroom
    obtain ⟨hc1, -⟩ := connect_frame B pool w
    have hlt : (pool.conn.buf.length : Int) < pool.conn.cap := by push_cast at hroom; omega
    unfold generateLoop
    simp only
    split
    · split_ifs with hff
      · exact ⟨_, rfl⟩
      · simp only [Chan.send, hc1, hopen, hlt, if_true, if_false, Bool.false_eq_true]
        apply ih
        · simp only [hc1, hopen]
        · simp only [hc1, List.length_append, List.length_singleton]
          push_cast at hroom ⊢
          omega
    · simp only [Chan.send, hc1, hopen, hlt, if_true, if_false, Bool.false_eq_true]
      apply ih
      · simp only [hc1, hopen]
      · simp only [hc1, List.length_append, List.length_singleton]
        push_cast at hroom ⊢
        omega

/-- The function `generatePool` returns whenever the configured size is one
`make` accepts: not negative and within the allocation limit. -/
theorem generatePool_total {β : Type} (B : Breaker β) (pool : MysqlPool β) (failFirst : Bool)
    (w : World) (hsize : 0 ≤ pool.Configs.Poolsize)
    (hmake : pool.Configs.Poolsize ≤ w.chanLimit) :
    ∃ r, generatePool B pool failFirst w = .ok r := by
  unfold generatePool Chan.make
  have hneg : ¬ (pool.Configs.Poolsize < 0 ∨ w.chanLimit < pool.Configs.Poolsize) := by omega
  simp only [hneg, if_false]
  obtain ⟨r, hr⟩ := generateLoop_total B failFirst pool.Configs.Poolsize.toNat
    { pool with conn := { cap := pool.Configs.Poolsize, buf := [], closed := false } } w rfl
    (by simp only [List.length_nil, Nat.cast_zero, zero_add]; omega)
  rw [hr]
  obtain ⟨e, p, w1⟩ := r
  cases e with
  | some e => exact ⟨_, rfl⟩
  | none =>
    simp only
    split_ifs
    · exact ⟨_, rfl⟩
    · exact ⟨_, rfl⟩

/-- The function `generatePool`, when it returns, has written `Success` exactly
when it reports no error, and otherwise left the state alone; options, retry
counter and closed handles are untouched and the queue is a fresh open channel
of the configured size. -/
theorem generatePool_frame {β : Type} (B : Breaker β) (pool : MysqlPool β) (failFirst : Bool)
    (w : World) (r : Option GoError × MysqlPool β × World)
    (h : generatePool B pool failFirst w = .ok r) :
    r.2.1.Configs = pool.Configs ∧ r.2.1.regenTryes = pool.regenTryes ∧
    r.2.2.closedConns = w.closedConns ∧ r.2.2.now = w.now ∧
    r.2.1.conn.closed = false ∧ r.2.1.conn.cap = pool.Configs.Poolsize ∧
    (r.1 = none → r.2.1.state = .Success) ∧ (r.1 ≠ none → r.2.1.state = pool.state) := by
  unfold generatePool Chan.make at h
  split_ifs at h with hneg
  simp only at h
  split at h
  · exact absurd h (by simp)
  · rename_i e p1 w1 hl
    obtain ⟨f1, f2, f3, f4, f5, f6, f7⟩ := generateLoop_frame B failFirst _ _ _ _ hl
    simp only [Except.ok.injEq] at h
    subst h
    simp only at f1 f2 f3 f4 f5 f6 f7
    simp [f1, f2, f3, f4, f5, f6, f7]
  · rename_i p1 w1 hl
    obtain ⟨f1, f2, f3, f4, f5, f6, f7⟩ := generateLoop_frame B failFirst _ _ _ _ hl
    simp only at f1 f2 f3 f4 f5 f6 f7
    obtain ⟨t1, t2, t3, t4, t5, t6, t7, t8, t9, t10, t11⟩ := setTrippedTime_frame p1 w1
    split_ifs at h with ht
    · simp only [Except.ok.injEq] at h
      subst h
      simp [f1, f2, f3, f4, f5, f6, f7, t1, t2, t6, t7, t8, t11]
    · simp only [Except.ok.injEq] at h
      subst h
      simp [f1, f2, f3, f4, f5, f6, f7]


/-- The method `clean`, when it returns, has changed only the channel, and has
closed no handle unless the retry counter was zero. -/
theorem clean_frame {β : Type} (pool : MysqlPool β) (w : World) (r : MysqlPool β × World)
    (h : clean pool w = .ok r) :
    r.1.state = pool.state ∧ r.1.Configs = pool.Configs ∧ r.1.regenTryes = pool.regenTryes ∧
    r.1.cb = pool.cb ∧ r.1.events = pool.events ∧ r.2.now = w.now ∧ r.2.reads = w.reads ∧
    (pool.regenTryes ≠ 0 → r.2.closedConns = w.closedConns ∧ r.1.conn.buf = pool.conn.buf) := by
  unfold clean at h
  simp only at h
  split at h
  · exact absurd h (by simp)
  · rename_i c w1 hd
    split at h
    · exact absurd h (by simp)
    · rename_i c1 hc
      simp only [Except.ok.injEq] at h
      subst h
      have hw : w1.now = w.now ∧ w1.reads = w.reads := by
        split_ifs at hd with hz
        · clear hc hz
          generalize pool.Configs.Poolsize.toNat = n at hd
          generalize pool.conn = ch at hd
          induction n generalizing ch w with
          | zero =>
            simp only [drain, Except.ok.injEq, Prod.mk.injEq] at hd
            rw [← hd.2]
            exact ⟨rfl, rfl⟩
          | succ n ih =>
            unfold drain at hd
            split at hd
            · exact absurd hd (by simp)
            · have := ih _ _ hd
              simpa using this
            · exact ih _ _ hd
        · simp only [Except.ok.injEq, Prod.mk.injEq] at hd
          rw [← hd.2]
          exact ⟨rfl, rfl⟩
      refine ⟨rfl, rfl, rfl, rfl, rfl, hw.1, hw.2, ?_⟩
      intro hnz
      simp only [hnz, if_false, Except.ok.injEq, Prod.mk.injEq] at hd
      obtain ⟨hd1, hd2⟩ := hd
      subst hd1 hd2
      unfold Chan.close at hc
      split_ifs at hc
      simp only [Except.ok.injEq] at hc
      subst hc
      exact ⟨rfl, rfl⟩

/-- The method `clean` returns on an open channel when the retry counter is
not zero: it only closes the channel. -/
theorem clean_retry {β : Type} (pool : MysqlPool β) (w : World)
    (hretry : pool.regenTryes ≠ 0) (hopen : pool.conn.closed = false) :
    clean pool w = .ok ({ pool with conn := { pool.conn with closed := true } }, w) := by
  unfold clean Chan.close
  simp only [hretry, if_false, hopen, Bool.false_eq_true]

/-- The method `regenerate`, when it returns, has either left the state alone
or rebuilt the pool of a failed state into `Success`; the options are as
before. -/
theorem regenerate_frame {β : Type} (B : Breaker β) (pool : MysqlPool β) (w : World)
    (r : MysqlPool β × World) (h : regenerate B pool w = .ok r) :
    (r.1.state = pool.state ∨ (pool.state = .Fail ∧ r.1.state = .Success)) ∧
      r.1.Configs = pool.Configs := by
  unfold regenerate at h
  simp only at h
  split_ifs at h with hgate
  · split at h
    · exact absurd h (by simp)
    · rename_i pool2 w2 hreset
      unfold reset at hreset
      split at hreset
      · exact absurd hreset (by simp)
      · rename_i pool1 w1 hclean
        obtain ⟨c1, c2, -⟩ := clean_frame _ _ _ hclean
        simp only [Except.ok.injEq, Prod.mk.injEq] at hreset
        obtain ⟨hp2, -⟩ := hreset
        subst hp2
        split at h
        · exact absurd h (by simp)
        · rename_i e pool3 w3 hgen
          obtain ⟨g1, -, -, -, -, -, -, g8⟩ := generatePool_frame B _ true _ _ hgen
          obtain ⟨t1, t2, -, -, -, -, t7, -⟩ :=
            setTrippedTime_frame
              { pool3 with cb := (B.Trip pool3.cb).1, events := pool3.events ++ (B.Trip pool3.cb).2 } w3
          simp only [Except.ok.injEq] at h
          subst h
          simp only at g1 g8 c1 c2 t2 t7
          have g8 := g8 (by simp)
          exact ⟨Or.inl (by rw [t2, g8, c1]), by rw [t7, g1, c2]⟩
        · rename_i pool3 w3 hgen
          obtain ⟨g1, -, -, -, -, -, g7, -⟩ := generatePool_frame B _ true _ _ hgen
          simp only [Except.ok.injEq] at h
          subst h
          simp only at g1 g7 c1 c2
          have hfail : pool.state = .Fail := hgate.2
          exact ⟨Or.inr ⟨hfail, g7 trivial⟩, by simp only [g1, c2]⟩
  · simp only [Except.ok.injEq] at h
    subst h
    exact ⟨Or.inl rfl, rfl⟩

/-- The method `regenerate` returns on every usable pool. -/
theorem regenerate_total {β : Type} (B : Breaker β) (pool : MysqlPool β) (w : World)
    (hu : pool.Usable w) : ∃ r, regenerate B pool w = .ok r := by
  obtain ⟨hopen, hsize, hmake, h0, h1⟩ := hu
  unfold regenerate
  simp only
  split_ifs with hgate
  · have hretry : wrap64 (pool.regenTryes + 1) ≠ 0 := by
      rw [wrap64_succ _ h0 h1]
      omega
    unfold reset
    rw [clean_retry { pool with regenTryes := wrap64 (pool.regenTryes + 1) } _ hretry hopen]
    simp only
    obtain ⟨r, hr⟩ := generatePool_total B
      { cb := (B.Reset pool.cb).1, conn := { pool.conn with closed := true },
        state := pool.state, trippedAt := 0, failCount := 0,
        regenTryes := wrap64 (pool.regenTryes + 1), Configs := pool.Configs,
        events := pool.events ++ (B.Reset pool.cb).2 } true { w with reads := w.reads + 1 } hsize
      hmake
    rw [hr]
    obtain ⟨e, p, w1⟩ := r
    cases e with
    | some e => exact ⟨_, rfl⟩
    | none => exact ⟨_, rfl⟩
  · exact ⟨_, rfl⟩


/-- The method `regenerate` closes no handle when the incremented retry counter
is not zero; the counter is incremented before `clean` tests it. -/
theorem regenerate_closes_nothing {β : Type} (B : Breaker β) (pool : MysqlPool β) (w : World)
    (r : MysqlPool β × World) (hretry : wrap64 (pool.regenTryes + 1) ≠ 0)
    (h : regenerate B pool w = .ok r) : r.2.closedConns = w.closedConns := by
  unfold regenerate at h
  simp only at h
  split_ifs at h with hgate
  · split at h
    · exact absurd h (by simp)
    · rename_i pool2 w2 hreset
      unfold reset at hreset
      split at hreset
      · exact absurd hreset (by simp)
      · rename_i pool1 w1 hclean
        obtain ⟨-, -, -, -, -, -, -, c8⟩ := clean_frame _ _ _ hclean
        have c8 := (c8 hretry).1
        simp only [Except.ok.injEq, Prod.mk.injEq] at hreset
        obtain ⟨hp2, hw2⟩ := hreset
        subst hp2 hw2
        split at h
        · exact absurd h (by simp)
        · rename_i e pool3 w3 hgen
          obtain ⟨-, -, g3, -⟩ := generatePool_frame B _ true _ _ hgen
          obtain ⟨-, -, -, -, -, -, -, -, -, -, t11⟩ :=
            setTrippedTime_frame
              { pool3 with cb := (B.Trip pool3.cb).1, events := pool3.events ++ (B.Trip pool3.cb).2 } w3
          simp only [Except.ok.injEq] at h
          subst h
          simp only at g3 c8
          rw [t11, g3, c8]
        · rename_i pool3 w3 hgen
          obtain ⟨-, -, g3, -⟩ := generatePool_frame B _ true _ _ hgen
          simp only [Except.ok.injEq] at h
          subst h
          simp only at g3 c8
          rw [g3, c8]
  · simp only [Except.ok.injEq] at h
    subst h
    rfl

/-- On a nil handle `Execute` records one breaker failure, returns the "empty
connection" error without starting the callback, and does not send the handle
back: the queue is one entry shorter. -/
theorem Execute_empty_connection {β : Type} (B : Breaker β) (pool : MysqlPool β) (w : World)
    (callback : Handle → Option GoError) (inTime : Bool) (rest : List (Option Handle))
    (hf : State pool ≠ .Fail) (hr : State pool ≠ .Regenerate)
    (hqueue : pool.conn.buf = none :: rest) :
    Execute B pool w callback inTime =
      .ok { err := some (.new "empty connection"),
            pool := { pool with conn := { pool.conn with buf := rest }, cb := (B.Fail pool.cb).1,
                                events := pool.events ++ (B.Fail pool.cb).2 },
            world := w, invoked := [] } := by
  simp only [Execute, hf, hr, if_false, popConx, Chan.recv_cons _ _ _ hqueue]

/-! ## C2 -/

/-- C2. `Execute` returns an error without starting the callback in three
cases. In state Fail every return carries the "unavailable service" error, no
callback invocation, and the pool and world that `regenerate` produced
(whether or not it rebuilt the pool), and the call does return on every pool
that is usable in the running process. In state Regenerate the call returns
the "unavailable service" error and leaves pool and world exactly as they
were. In any other state with a nil handle at the head of the queue, the call
returns the "empty connection" error with the breaker advanced by exactly one
`Fail`. -/
theorem Execute_refuses {β : Type} (B : Breaker β) (pool : MysqlPool β) (w : World)
    (callback : Handle → Option GoError) (inTime : Bool) :
    (State pool = .Fail →
      (∀ r, Execute B pool w callback inTime = .ok r →
        r.err = some (.new "unavailable service") ∧ r.invoked = [] ∧
        regenerate B pool w = .ok (r.pool, r.world)) ∧
      (pool.Usable w → ∃ r, Execute B pool w callback inTime = .ok r)) ∧
    (State pool = .Regenerate →
      Execute B pool w callback inTime =
        .ok { err := some (.new "unavailable service"), pool := pool, world := w,
              invoked := [] }) ∧
    (State pool ≠ .Fail → State pool ≠ .Regenerate →
      ∀ rest, pool.conn.buf = none :: rest →
        ∃ r, Execute B pool w callback inTime = .ok r ∧
          r.err = some (.new "empty connection") ∧ r.invoked = [] ∧
          r.pool.cb = (B.Fail pool.cb).1 ∧
          r.pool.events = pool.events ++ (B.Fail pool.cb).2 ∧
          r.pool.state = pool.state ∧ r.pool.trippedAt = pool.trippedAt ∧
          r.pool.failCount = pool.failCount ∧ r.pool.regenTryes = pool.regenTryes) := by
  refine ⟨fun hfail => ⟨?_, ?_⟩, ?_, ?_⟩
  · intro r h
    simp only [Execute, hfail, if_true] at h
    split at h
    · exact absurd h (by simp)
    · rename_i p1 w1 hreg
      simp only [Except.ok.injEq] at h
      subst h
      exact ⟨rfl, rfl, hreg⟩
  · intro hu
    obtain ⟨⟨p1, w1⟩, hreg⟩ := regenerate_total B pool w hu
    simp only [Execute, hfail, if_true, hreg]
    exact ⟨_, rfl⟩
  · intro hregen
    have hne : ¬ State pool = .Fail := by rw [hregen]; decide
    unfold Execute
    rw [if_neg hne, if_pos hregen]
  · intro hf hr rest hqueue
    rw [Execute_empty_connection B pool w callback inTime rest hf hr hqueue]
    exact ⟨_, rfl, rfl, rfl, rfl, rfl, rfl, rfl, rfl, rfl⟩

/-- C2, at three pools: one in state Fail whose interval has elapsed, one in
state Regenerate, one in state Success with a nil placeholder first. -/
theorem Execute_refuses_witness :
    (∃ r, Execute rateBreaker
        (poolWith .Fail [some 1, some 2] 1000 0 (urlOptions 2 (.fin 1 (-2)) 2 3000000000))
        { reachableWorld with reads := 5 } failing true = .ok r) ∧
    Execute rateBreaker
        (poolWith .Regenerate [some 1, some 2] 1000 0 (urlOptions 2 (.fin 1 (-2)) 2 3000000000))
        reachableWorld failing true =
      .ok { err := some (.new "unavailable service"),
            pool := poolWith .Regenerate [some 1, some 2] 1000 0
              (urlOptions 2 (.fin 1 (-2)) 2 3000000000),
            world := reachableWorld, invoked := [] } ∧
    (∃ r, Execute rateBreaker
        (poolWith .Success [none, some 2] 0 0 (urlOptions 2 (.fin 1 (-2)) 2 3000000000))
        reachableWorld failing true = .ok r ∧
      r.err = some (.new "empty connection") ∧ r.invoked = [] ∧
      r.pool.cb = (rateBreaker.Fail (poolWith .Success [none, some 2] 0 0
        (urlOptions 2 (.fin 1 (-2)) 2 3000000000)).cb).1 ∧
      r.pool.events = (poolWith .Success [none, some 2] 0 0
          (urlOptions 2 (.fin 1 (-2)) 2 3000000000)).events ++
        (rateBreaker.Fail (poolWith .Success [none, some 2] 0 0
          (urlOptions 2 (.fin 1 (-2)) 2 3000000000)).cb).2 ∧
      r.pool.state = .Success ∧ r.pool.trippedAt = 0 ∧ r.pool.failCount = 0 ∧
      r.pool.regenTryes = 0) :=
  ⟨((Execute_refuses rateBreaker
        (poolWith .Fail [some 1, some 2] 1000 0 (urlOptions 2 (.fin 1 (-2)) 2 3000000000))
        { reachableWorld with reads := 5 } failing true).1 rfl).2
      ⟨rfl, by decide, by decide, by decide, by decide⟩,
    (Execute_refuses rateBreaker
        (poolWith .Regenerate [some 1, some 2] 1000 0 (urlOptions 2 (.fin 1 (-2)) 2 3000000000))
        reachableWorld failing true).2.1 rfl,
    (Execute_refuses rateBreaker
        (poolWith .Success [none, some 2] 0 0 (urlOptions 2 (.fin 1 (-2)) 2 3000000000))
        reachableWorld failing true).2.2 (by decide) (by decide) [some 2] rfl⟩


/-! ## Normalization -/

/-- The connection string built from a host is never empty. -/
theorem hostUrl_ne_empty (a b c d : String) :
    "user=" ++ a ++ " dbname=" ++ b ++ " host=" ++ c ++ " password=" ++ d ≠ "" := by
  intro h
  have hlen := congrArg String.length h
  simp only [String.length_append] at hlen
  have h5 : "user=".length = 5 := by decide
  have h0 : "".length = 0 := by decide
  omega

/-- Outside NaN the order of `F64` is total. -/
theorem F64.le_of_not_lt (a b : F64) (ha : a ≠ .nan) (hb : b ≠ .nan)
    (h : F64.lt a b = false) : F64.le b a = true := by
  cases a <;> cases b <;> simp_all [F64.lt, F64.le]
  rw [min_comm]
  exact h

/-- The URL `configValidate` leaves in the options: built from the host when
there is one, else the URL given, else the environment variable. -/
theorem configValidate_Url (o : MysqlOptions) (env : String) :
    (configValidate o env).Url =
      (if o.Host ≠ "" then
        "user=" ++ o.User ++ " dbname=" ++ o.Dbas ++ " host=" ++ o.Host ++ " password=" ++ o.Pass
       else if o.Url ≠ "" then o.Url else env) := by
  unfold configValidate
  simp only [Id.run, pure, bind, apply_ite MysqlOptions.Url, ite_self]
  by_cases hh : o.Host = ""
  · by_cases hu : o.Url = ""
    · simp [hh, hu]
    · simp [hh, hu]
  · simp [hh, hostUrl_ne_empty]

/-- The pool size `configValidate` leaves in the options. -/
theorem configValidate_Poolsize (o : MysqlOptions) (env : String) :
    (configValidate o env).Poolsize = (if o.Poolsize ≤ 0 then 5 else o.Poolsize) := by
  unfold configValidate
  simp only [Id.run, pure, bind, apply_ite MysqlOptions.Poolsize, ite_self]

/-- The window size `configValidate` leaves in the options. -/
theorem configValidate_Universe (o : MysqlOptions) (env : String) :
    (configValidate o env).Universe =
      (if o.Universe ≤ (if o.Poolsize ≤ 0 then 5 else o.Poolsize)
        then (if o.Poolsize ≤ 0 then 5 else o.Poolsize) else o.Universe) := by
  unfold configValidate
  simp only [Id.run, pure, bind, apply_ite MysqlOptions.Universe, ite_self]
  split_ifs <;> rfl

/-- The timeout `configValidate` leaves in the options. -/
theorem configValidate_TimeOut (o : MysqlOptions) (env : String) :
    (configValidate o env).TimeOut = (if o.TimeOut < 0 then 0 else o.TimeOut) := by
  unfold configValidate
  simp only [Id.run, pure, bind, apply_ite MysqlOptions.TimeOut, ite_self]

/-- The interval `configValidate` leaves in the options. -/
theorem configValidate_Regenerate (o : MysqlOptions) (env : String) :
    (configValidate o env).Regenerate =
      (if o.Regenerate ≤ 0 then 3000000000 else o.Regenerate) := by
  unfold configValidate
  simp only [Id.run, pure, bind, apply_ite MysqlOptions.Regenerate, ite_self]
  split_ifs <;> rfl

/-- The failure rate `configValidate` leaves in the options. -/
theorem configValidate_FailRate (o : MysqlOptions) (env : String) :
    (configValidate o env).FailRate =
      (if F64.lt F64.one (if F64.lt o.FailRate F64.zero then F64.zero else o.FailRate)
        then F64.one
       else (if F64.lt o.FailRate F64.zero then F64.zero else o.FailRate)) := by
  unfold configValidate
  simp only [Id.run, pure, bind, apply_ite MysqlOptions.FailRate, ite_self]
  split_ifs <;> rfl

/-- The function `configValidate` does normalize its argument: the pool size
is positive (5 when the input is not), the window is at least the pool size,
the timeout is not negative, the interval is positive (3 s when the input is
not), and a failure rate other than NaN ends in [0, 1]; NaN stays NaN. -/
theorem configValidate_normalizes (o : MysqlOptions) (env : String) :
    0 < (configValidate o env).Poolsize ∧
    (o.Poolsize ≤ 0 → (configValidate o env).Poolsize = 5) ∧
    (configValidate o env).Poolsize ≤ (configValidate o env).Universe ∧
    0 ≤ (configValidate o env).TimeOut ∧
    0 < (configValidate o env).Regenerate ∧
    (o.Regenerate ≤ 0 → (configValidate o env).Regenerate = 3000000000) ∧
    (o.FailRate ≠ .nan →
      F64.le F64.zero (configValidate o env).FailRate = true ∧
      F64.le (configValidate o env).FailRate F64.one = true) ∧
    (o.FailRate = .nan → (configValidate o env).FailRate = .nan) := by
  rw [configValidate_Poolsize, configValidate_Universe, configValidate_TimeOut,
    configValidate_Regenerate, configValidate_FailRate]
  refine ⟨?_, ?_, ?_, ?_, ?_, ?_, ?_, ?_⟩
  · split_ifs <;> omega
  · intro h
    rw [if_pos h]
  · split_ifs <;> omega
  · split_ifs <;> omega
  · split_ifs <;> omega
  · intro h
    rw [if_pos h]
  · intro hnan
    by_cases h0 : F64.lt o.FailRate F64.zero = true
    · simp only [h0, if_true]
      decide
    · have h0f : F64.lt o.FailRate F64.zero = false := by simpa using h0
      simp only [h0f, Bool.false_eq_true, if_false]
      by_cases h1 : F64.lt F64.one o.FailRate = true
      · simp only [h1, if_true]
        decide
      · have h1f : F64.lt F64.one o.FailRate = false := by simpa using h1
        simp only [h1f, Bool.false_eq_true, if_false]
        exact ⟨F64.le_of_not_lt _ _ hnan (by decide) h0f,
          F64.le_of_not_lt _ _ (by decide) hnan h1f⟩
  · intro h
    rw [h]
    decide

/-! ## C3 -/

/-- The pool returned by `InitPool` holds the options exactly as they were
passed in. -/
theorem InitPool_Configs {β : Type} (B : Breaker β) (opts : MysqlOptions) (env : String)
    (w : World) (r : MysqlPool β × Option GoError × World)
    (h : InitPool B opts env w = .ok r) : r.1.Configs = opts := by
  unfold InitPool at h
  simp only at h
  split at h
  · exact absurd h (by simp)
  · rename_i e p1 w1 hgen
    obtain ⟨g1, -⟩ := generatePool_frame B _ false _ _ hgen
    simp only [Except.ok.injEq] at h
    subst h
    exact g1
  · rename_i p1 w1 hgen
    obtain ⟨g1, -⟩ := generatePool_frame B _ false _ _ hgen
    simp only [Except.ok.injEq] at h
    subst h
    exact g1

/-- C3, evaluated on out-of-range options: `InitPool` returns a pool whose
`Configs` are the options as passed (size 0, rate 3.0, window -2, timeout -1,
interval 0), not the result of `configValidate` (size 5, rate 1.0, window 5,
timeout 0, interval 3 s); the queue it built has capacity 0. -/
theorem InitPool_keeps_raw_options :
    (InitPool rateBreaker rawOptions "" reachableWorld).toOption.map
        (fun r => (r.1.Configs, r.1.conn.cap, r.1.cb.rate, r.1.cb.size)) =
      some (rawOptions, 0, .fin 3 0, -2) ∧
    configValidate rawOptions "" =
      { rawOptions with Poolsize := 5, FailRate := F64.one, Universe := 5, TimeOut := 0,
                        Regenerate := 3000000000 } ∧
    configValidate rawOptions "" ≠ rawOptions := by
  decide

/-! ## C7 -/

/-- On a valid handle, outside the states Fail and Regenerate, `Execute`
returns and has rotated the queue, whatever the breaker and the callback do;
the state is untouched. -/
theorem Execute_valid_handle {β : Type} (B : Breaker β) (pool : MysqlPool β) (w : World)
    (callback : Handle → Option GoError) (inTime : Bool) (c : Handle)
    (rest : List (Option Handle))
    (hf : State pool ≠ .Fail) (hr : State pool ≠ .Regenerate)
    (hqueue : pool.conn.buf = some c :: rest) (hopen : pool.conn.closed = false)
    (hcap : (pool.conn.buf.length : Int) ≤ pool.conn.cap) :
    ∃ r, Execute B pool w callback inTime = .ok r ∧
      r.pool.conn = { pool.conn with buf := rest ++ [some c] } ∧
      r.pool.state = pool.state ∧ r.world = w := by
  have hlen : (rest.length : Int) < pool.conn.cap := by
    rw [hqueue] at hcap
    simp only [List.length_cons, Nat.cast_add, Nat.cast_one] at hcap
    omega
  simp only [Execute, hf, hr, if_false, popConx, Chan.recv_cons _ _ _ hqueue, pushConx,
    Chan.send, hopen, hlen, if_true, Bool.false_eq_true]
  exact ⟨_, rfl, rfl, rfl, rfl⟩

/-- On a pool in state Success whose queue holds valid handles only, any
number of calls of `Execute` leaves the number of queue entries and the state
as they were. -/
theorem executeTimes_valid_queue {β : Type} (B : Breaker β)
    (callback : Handle → Option GoError) :
    ∀ (k : Nat) (pool : MysqlPool β) (w : World), State pool = .Success →
      (∀ x ∈ pool.conn.buf, x.isSome = true) → pool.conn.buf ≠ [] →
      pool.conn.closed = false → (pool.conn.buf.length : Int) ≤ pool.conn.cap →
      ∃ s, executeTimes B callback k (pool, w) = .ok s ∧
        s.1.conn.buf.length = pool.conn.buf.length ∧ State s.1 = .Success := by
  intro k
  induction k with
  | zero =>
    intro pool w hs _ _ _ _
    exact ⟨_, rfl, rfl, hs⟩
  | succ k ih =>
    intro pool w hs hvalid hne hopen hcap
    obtain ⟨x, rest, hq⟩ := List.exists_cons_of_ne_nil hne
    have hx : x.isSome = true := hvalid x (by rw [hq]; exact List.mem_cons_self _ _)
    obtain ⟨c, hc⟩ := Option.isSome_iff_exists.mp hx
    subst hc
    have hf : State pool ≠ .Fail := by rw [hs]; decide
    have hr : State pool ≠ .Regenerate := by rw [hs]; decide
    obtain ⟨r, hex, hconn, hstate, -⟩ :=
      Execute_valid_handle B pool w callback true c rest hf hr hq hopen hcap
    unfold executeTimes
    simp only [hex]
    have hlen : (rest ++ [some c]).length = pool.conn.buf.length := by
      rw [hq]
      simp
    obtain ⟨s, hrun, hl, hst⟩ := ih r.pool r.world
      (by simp only [State] at hs ⊢; rw [hstate, hs])
      (by
        intro y hy
        rw [hconn] at hy
        simp only [List.mem_append, List.mem_singleton] at hy
        rcases hy with hy | hy
        · exact hvalid y (by rw [hq]; exact List.mem_cons_of_mem _ hy)
        · rw [hy]
          rfl)
      (by rw [hconn]; simp)
      (by rw [hconn]; exact hopen)
      (by
        rw [hconn]
        simp only
        rw [hlen]
        exact hcap)
    refine ⟨s, hrun, ?_, hst⟩
    rw [hl, hconn]
    exact hlen

/-- C7, evaluated on a pool in state Success whose queue is a nil placeholder
followed by a valid handle: after one `Execute` with a callback that does
nothing the queue holds one entry, not two; the nil handle was not sent
back. -/
theorem Execute_drops_nil_placeholder :
    State (poolWith .Success [none, some 2] 0 0 (urlOptions 2 (.fin 1 (-2)) 2 3000000000))
      = .Success ∧
    (poolWith .Success [none, some 2] 0 0
      (urlOptions 2 (.fin 1 (-2)) 2 3000000000)).conn.buf.length = 2 ∧
    (executeTimes rateBreaker noop 1
        (poolWith .Success [none, some 2] 0 0 (urlOptions 2 (.fin 1 (-2)) 2 3000000000),
          reachableWorld)).toOption.map (fun s => s.1.conn.buf) = some [some 2] := by
  decide

/-! ## C8 -/

/-- C8, amended. In state Fail, when the whole epoch seconds between the clock
reading and `trippedAt` (as the code computes them) are fewer than the whole
seconds of the interval (`Regenerate / 10^9`, truncated toward zero),
`regenerate` only reads the clock and `Execute` returns the "unavailable
service" error: the pool (queue, breaker, regenTryes, failCount, trippedAt,
state) is exactly as before. -/
theorem regenerate_waits_whole_seconds {β : Type} (B : Breaker β) (pool : MysqlPool β)
    (w : World) (callback : Handle → Option GoError) (inTime : Bool)
    (hstate : State pool = .Fail)
    (hearly : wrap64 (w.now w.reads - pool.trippedAt) <
      Int.tdiv pool.Configs.Regenerate 1000000000) :
    regenerate B pool w = .ok (pool, { w with reads := w.reads + 1 }) ∧
    Execute B pool w callback inTime =
      .ok { err := some (.new "unavailable service"), pool := pool,
            world := { w with reads := w.reads + 1 }, invoked := [] } := by
  have hskip := regenerate_skip B pool w (by omega)
  refine ⟨hskip, ?_⟩
  unfold Execute
  rw [if_pos hstate, hskip]

/-- C8 amended, at a pool tripped at second 1000 with a 3 s interval, read at
second 1002. -/
theorem regenerate_waits_whole_seconds_witness :
    regenerate rateBreaker
        (poolWith .Fail [some 1, some 2] 1000 0 (urlOptions 2 (.fin 1 (-2)) 2 3000000000))
        { reachableWorld with reads := 2 } =
      .ok (poolWith .Fail [some 1, some 2] 1000 0 (urlOptions 2 (.fin 1 (-2)) 2 3000000000),
        { reachableWorld with reads := 2 + 1 }) ∧
    Execute rateBreaker
        (poolWith .Fail [some 1, some 2] 1000 0 (urlOptions 2 (.fin 1 (-2)) 2 3000000000))
        { reachableWorld with reads := 2 } noop true =
      .ok { err := some (.new "unavailable service"),
            pool := poolWith .Fail [some 1, some 2] 1000 0
              (urlOptions 2 (.fin 1 (-2)) 2 3000000000),
            world := { reachableWorld with reads := 2 + 1 }, invoked := [] } :=
  regenerate_waits_whole_seconds rateBreaker
    (poolWith .Fail [some 1, some 2] 1000 0 (urlOptions 2 (.fin 1 (-2)) 2 3000000000))
    { reachableWorld with reads := 2 } noop true rfl (by decide)

/-- C8 as stated fails: a pool in state Fail tripped at second 1000 with an
interval of 1.5 s, read at second 1001. One second has elapsed, less than the
interval, yet `regenerate` runs an attempt: the queue is closed and rebuilt
(here the rebuild fails), regenTryes goes from 0 to 1 and trippedAt from 1000
to 1002. -/
theorem regenerate_before_interval :
    State (poolWith .Fail [some 1, some 2] 1000 0 (urlOptions 2 (.fin 1 (-2)) 2 1500000000))
      = .Fail ∧
    (unreachableWorld.now 1 - 1000) * 1000000000 < 1500000000 ∧
    (regenerate rateBreaker
        (poolWith .Fail [some 1, some 2] 1000 0 (urlOptions 2 (.fin 1 (-2)) 2 1500000000))
        { unreachableWorld with reads := 1 }).toOption.map
        (fun r => (r.1.regenTryes, r.1.trippedAt, r.1.conn.buf, r.1.events)) =
      some (1, 1002, [], [.BreakerReset, .BreakerFail, .BreakerTripped, .BreakerTripped]) := by
  decide

/-! ## C10 -/

/-- C10, evaluated on a pool in state Fail with regenTryes = 0 whose queue
holds the valid handles 11 and 12, read 5 s after the trip with a 3 s
interval: the attempt runs (the rebuilt queue holds the new handles 1 and 2,
regenTryes ends at 0) but handles 11 and 12 were not closed, because
`regenerate` increments regenTryes before `clean` tests it for zero. -/
theorem regenerate_first_retry_closes_nothing :
    (poolWith .Fail [some 11, some 12] 1000 0
      (urlOptions 2 (.fin 1 (-2)) 2 3000000000)).regenTryes = 0 ∧
    (regenerate rateBreaker
        (poolWith .Fail [some 11, some 12] 1000 0 (urlOptions 2 (.fin 1 (-2)) 2 3000000000))
        { reachableWorld with reads := 5 }).toOption.map
        (fun r => (r.2.closedConns, r.1.conn.buf, r.1.regenTryes, r.1.state)) =
      some ([], [some 1, some 2], 0, .Success) := by
  decide


/-! ## Builds in which every slot fails -/

/-- Without a URL, or when every attempt fails, `connect` returns nil and an
error; without a URL it touches neither pool nor world. -/
theorem connect_fails {β : Type} (B : Breaker β) (pool : MysqlPool β) (w : World)
    (h : pool.Configs.Url = "" ∨ ∀ k, ∃ e, w.dial k = .error e) :
    (connect B pool w).1 = none ∧ (∃ e, (connect B pool w).2.1 = some e) ∧
    (pool.Configs.Url = "" → (connect B pool w).2.2.1 = pool ∧ (connect B pool w).2.2.2 = w) := by
  unfold connect
  by_cases hu : pool.Configs.Url = ""
  · simp [hu]
  · have hd : ∀ k, ∃ e, w.dial k = .error e := h.resolve_left hu
    by_cases ht : B.Tripped pool.cb = true
    · simp [hu, ht]
    · by_cases hg : (B.Ready pool.cb).1 = true
      · obtain ⟨e, he⟩ := hd w.dials
        simp [hu, ht, hg, he]
      · simp [hu, ht, hg]

/-- The loop of `generatePool` with `failFirst = false`, when every `connect`
fails: it fills every slot with nil and counts every slot as failed. -/
theorem generateLoop_all_fail {β : Type} (B : Breaker β) :
    ∀ (n : Nat) (pool : MysqlPool β) (w : World),
      (pool.Configs.Url = "" ∨ ∀ k, ∃ e, w.dial k = .error e) →
      pool.conn.closed = false →
      (pool.conn.buf.length : Int) + (n : Int) ≤ pool.conn.cap →
      0 ≤ pool.failCount → pool.failCount + (n : Int) < 2 ^ 63 →
      ∃ p1 w1, generateLoop B false n pool w = .ok (none, p1, w1) ∧
        p1.conn = { pool.conn with buf := pool.conn.buf ++ List.replicate n none } ∧
        p1.failCount = pool.failCount + (n : Int) ∧ p1.state = pool.state ∧
        p1.trippedAt = pool.trippedAt ∧ p1.regenTryes = pool.regenTryes ∧
        p1.Configs = pool.Configs ∧ w1.now = w.now ∧ w1.reads = w.reads ∧
        (pool.Configs.Url = "" → p1.cb = pool.cb ∧ p1.events = pool.events ∧
          w1.dials = w.dials) := by
  intro n
  induction n with
  | zero =>
    intro pool w _ _ _ _ _
    refine ⟨pool, w, rfl, ?_, ?_, rfl, rfl, rfl, rfl, rfl, rfl, fun _ => ⟨rfl, rfl, rfl⟩⟩
    · simp
    · simp
  | succ n ih =>
    intro pool w hfail hopen hroom h0 h1
    obtain ⟨hc1, hc2, hc3, hc4, hc5, hc6, hc7, hc8, hc9, hc10⟩ := connect_frame B pool w
    obtain ⟨hn, ⟨e, he⟩, hsame⟩ := connect_fails B pool w hfail
    have hlt : (pool.conn.buf.length : Int) < pool.conn.cap := by push_cast at hroom; omega
    have hwrap : wrap64 (pool.failCount + 1) = pool.failCount + 1 :=
      wrap64_succ _ h0 (by push_cast at h1; omega)
    unfold generateLoop
    simp only [he, hn, Bool.false_eq_true, if_false, Chan.send, hc1, hopen, hlt, if_true, hc4,
      hwrap]
    obtain ⟨p1, w1, hl, f1, f2, f3, f4, f5, f6, f7, f8, f9⟩ :=
      ih { (connect B pool w).2.2.1 with
            failCount := pool.failCount + 1,
            conn := { cap := pool.conn.cap, buf := pool.conn.buf ++ [none],
                      closed := false } }
        (connect B pool w).2.2.2
        (by
          simp only [hc6, hc9]
          exact hfail)
        rfl
        (by
          simp only [List.length_append, List.length_singleton]
          push_cast at hroom ⊢
          omega)
        (by simp only; omega)
        (by
          simp only
          push_cast at h1
          omega)
    simp only at hl f1 f2 f3 f4 f5 f6 f7 f8 f9
    refine ⟨p1, w1, hl, ?_, ?_, ?_, ?_, ?_, ?_, ?_, ?_, ?_⟩
    · rw [f1]
      simp [List.replicate_succ, hopen]
    · rw [f2]
      push_cast
      ring
    · rw [f3, hc2]
    · rw [f4, hc3]
    · rw [f5, hc5]
    · rw [f6, hc6]
    · rw [f7, hc7]
    · rw [f8, hc8]
    · intro hu
      obtain ⟨g1, g2, g3⟩ := f9 (by simp only [hc6]; exact hu)
      obtain ⟨s1, s2⟩ := hsame hu
      rw [g1, g2, g3, s1, s2]
      exact ⟨rfl, rfl, rfl⟩


/-- The function `InitPool` when every `connect` fails (no URL in the pool's
options, or an unreachable target) and `make` accepts the pool size: it
returns, with a queue of nil
placeholders and every slot counted as failed; whether it reports an error is
decided by the breaker's tripped flag alone. -/
theorem InitPool_all_fail {β : Type} (B : Breaker β) (opts : MysqlOptions) (env : String)
    (w : World) (hfail : opts.Url = "" ∨ ∀ k, ∃ e, w.dial k = .error e)
    (h0 : 0 ≤ opts.Poolsize) (h1 : opts.Poolsize < 2 ^ 63)
    (hmake : opts.Poolsize ≤ w.chanLimit) :
    ∃ p e w1, InitPool B opts env w = .ok (p, e, w1) ∧
      p.conn = { cap := opts.Poolsize, buf := List.replicate opts.Poolsize.toNat none,
                 closed := false } ∧
      p.failCount = opts.Poolsize ∧ p.regenTryes = 0 ∧
      (B.Tripped p.cb = true →
        e = some (.new "failed to create connection pool") ∧ p.state = .Fail ∧
        p.trippedAt = w.now w.reads ∧ w1.reads = w.reads + 1) ∧
      (B.Tripped p.cb = false →
        e = none ∧ p.state = .Success ∧ p.trippedAt = 0 ∧ w1.reads = w.reads) ∧
      (opts.Url = "" →
        p.cb = B.NewRateBreaker opts.FailRate opts.Universe ∧ p.events = [] ∧
        w1.dials = w.dials) := by
  have hneg : ¬ (opts.Poolsize < 0 ∨ w.chanLimit < opts.Poolsize) := by omega
  obtain ⟨p1, w1, hl, f1, f2, f3, f4, f5, f6, f7, f8, f9⟩ :=
    generateLoop_all_fail B opts.Poolsize.toNat
      { cb := B.NewRateBreaker opts.FailRate opts.Universe,
        conn := { cap := opts.Poolsize, buf := [], closed := false },
        state := .unset, trippedAt := 0, failCount := 0, regenTryes := 0,
        Configs := opts, events := [] } w hfail rfl
      (by simp only [List.length_nil, Nat.cast_zero, zero_add]; omega)
      (le_refl 0) (by simp only [zero_add]; omega)
  simp only [List.nil_append, zero_add] at f1 f2 f3 f4 f5 f6 f7 f8 f9
  have hfc : p1.failCount = opts.Poolsize := by rw [f2]; omega
  unfold InitPool generatePool Chan.make
  simp only [hneg, if_false, hl]
  by_cases ht : B.Tripped p1.cb = true
  · obtain ⟨t1, t2, t3, t4, t5, t6, t7, t8, t9, t10, t11⟩ := setTrippedTime_frame p1 w1
    have htrip : setTrippedTime p1 w1 =
        ({ p1 with trippedAt := w1.now w1.reads }, { w1 with reads := w1.reads + 1 }) := by
      unfold setTrippedTime
      rw [if_pos f4]
    simp only [ht, if_true, htrip]
    refine ⟨_, _, _, rfl, f1, hfc, f5, ?_, ?_, ?_⟩
    · intro _
      exact ⟨rfl, rfl, by simp only [f7, f8], by simp only [f8]⟩
    · intro hnt
      simp only [ht] at hnt
      exact absurd hnt (by decide)
    · intro hu
      exact f9 hu
  · simp only [ht, if_false]
    refine ⟨_, _, _, rfl, f1, hfc, f5, ?_, ?_, ?_⟩
    · intro hnt
      exact absurd hnt ht
    · intro _
      exact ⟨rfl, rfl, f4, f8⟩
    · intro hu
      exact f9 hu

/-! ## C6 -/

/-- C6, amended. With a pool size n > 0 that `make` accepts (no larger than
the allocation limit of the running process) and every connection attempt
failing, `InitPool` returns a pool whose queue holds exactly n nil
placeholders and whose failCount is n. If the breaker is tripped when the slots have been
filled, the call returns the "failed to create connection pool" error, the
state is Fail and trippedAt is the clock reading taken at that moment. If the
breaker is not tripped, the call returns no error, the state is Success and
trippedAt is 0. -/
theorem InitPool_unreachable_target {β : Type} (B : Breaker β) (opts : MysqlOptions)
    (env : String) (w : World) (hfail : ∀ k, ∃ e, w.dial k = .error e)
    (hn : 0 < opts.Poolsize) (hrange : opts.Poolsize < 2 ^ 63)
    (hmake : opts.Poolsize ≤ w.chanLimit) :
    ∃ p e w1, InitPool B opts env w = .ok (p, e, w1) ∧
      p.conn.buf = List.replicate opts.Poolsize.toNat none ∧
      p.conn.buf.length = opts.Poolsize.toNat ∧
      p.failCount = opts.Poolsize ∧
      (B.Tripped p.cb = true →
        e = some (.new "failed to create connection pool") ∧ State p = .Fail ∧
        p.trippedAt = w.now w.reads) ∧
      (B.Tripped p.cb = false → e = none ∧ State p = .Success ∧ p.trippedAt = 0) := by
  obtain ⟨p, e, w1, hi, c1, c2, -, c4, c5, -⟩ :=
    InitPool_all_fail B opts env w (Or.inr hfail) (le_of_lt hn) hrange hmake
  refine ⟨p, e, w1, hi, by rw [c1], by rw [c1]; simp, c2, ?_, ?_⟩
  · intro ht
    obtain ⟨a1, a2, a3, -⟩ := c4 ht
    exact ⟨a1, a2, a3⟩
  · intro ht
    obtain ⟨a1, a2, a3, -⟩ := c5 ht
    exact ⟨a1, a2, a3⟩

/-- C6 amended, at a pool of 5 with a window of 5 against an unreachable
target. -/
theorem InitPool_unreachable_target_witness :
    ∃ p e w1, InitPool rateBreaker (urlOptions 5 (.fin 1 (-2)) 5 3000000000) ""
        unreachableWorld = .ok (p, e, w1) ∧
      p.conn.buf = List.replicate (5 : Int).toNat none ∧
      p.conn.buf.length = (5 : Int).toNat ∧
      p.failCount = 5 ∧
      (rateBreaker.Tripped p.cb = true →
        e = some (.new "failed to create connection pool") ∧ State p = .Fail ∧
        p.trippedAt = unreachableWorld.now unreachableWorld.reads) ∧
      (rateBreaker.Tripped p.cb = false → e = none ∧ State p = .Success ∧ p.trippedAt = 0) :=
  InitPool_unreachable_target rateBreaker (urlOptions 5 (.fin 1 (-2)) 5 3000000000) ""
    unreachableWorld (fun _ => ⟨_, rfl⟩) (by decide) (by decide) (by decide)

/-- C6 as stated fails: pool size 1, failure rate 1.0, window 4 is a valid
configuration, the one connection attempt fails, and `InitPool` returns no
error and a pool in state Success with trippedAt = 0, because one failure does
not trip the breaker. -/
theorem InitPool_unreachable_without_trip :
    (0 : Int) < (urlOptions 1 (.fin 1 0) 4 3000000000).Poolsize ∧
    F64.le F64.zero (urlOptions 1 (.fin 1 0) 4 3000000000).FailRate = true ∧
    F64.le (urlOptions 1 (.fin 1 0) 4 3000000000).FailRate F64.one = true ∧
    (urlOptions 1 (.fin 1 0) 4 3000000000).Universe ≥
      (urlOptions 1 (.fin 1 0) 4 3000000000).Poolsize ∧
    (∀ k, ∃ e, unreachableWorld.dial k = .error e) ∧
    (InitPool rateBreaker (urlOptions 1 (.fin 1 0) 4 3000000000) "" unreachableWorld).toOption.map
        (fun r => (r.2.1, r.1.state, r.1.trippedAt)) = some (none, .Success, 0) ∧
    (InitPool rateBreaker (urlOptions 1 (.fin 1 0) 4 3000000000) "" unreachableWorld).toOption.map
        (fun r => (r.1.conn.buf, r.1.failCount)) = some ([none], 1) :=
  ⟨by decide, by decide, by decide, by decide, fun _ => ⟨_, rfl⟩, by decide, by decide⟩


/-! ## C4 -/

/-- C4, on the code. When the options name no target (no URL, no host, empty
`DATABASE_URL`, so that the normalized URL is empty as well) and the pool size
is n > 0 and one `make` accepts, `InitPool` with a breaker that starts
untripped makes no connection
attempt, returns no error, and returns a pool in state Success whose queue
holds n nil placeholders: the "can't find url" error of `connect` is
dropped. -/
theorem InitPool_without_target {β : Type} (B : Breaker β) (opts : MysqlOptions)
    (env : String) (w : World) (hurl : opts.Url = "") (hhost : opts.Host = "")
    (henv : env = "") (hn : 0 < opts.Poolsize) (hrange : opts.Poolsize < 2 ^ 63)
    (hmake : opts.Poolsize ≤ w.chanLimit)
    (hfresh : B.Tripped (B.NewRateBreaker opts.FailRate opts.Universe) = false) :
    (configValidate opts env).Url = "" ∧
    ∃ p w1, InitPool B opts env w = .ok (p, none, w1) ∧ State p = .Success ∧
      p.conn.buf = List.replicate opts.Poolsize.toNat none ∧ p.failCount = opts.Poolsize ∧
      w1.dials = w.dials := by
  constructor
  · rw [configValidate_Url]
    simp [hurl, hhost, henv]
  · obtain ⟨p, e, w1, hi, c1, c2, -, -, c5, c6⟩ :=
      InitPool_all_fail B opts env w (Or.inl hurl) (le_of_lt hn) hrange hmake
    obtain ⟨b1, -, b3⟩ := c6 hurl
    obtain ⟨a1, a2, -, -⟩ := c5 (by rw [b1]; exact hfresh)
    subst a1
    exact ⟨p, w1, hi, a2, by rw [c1], c2, b3⟩

/-- C4 on the code, at options naming no target with pool size 2: the
normalized URL is empty, and `InitPool` reports success. -/
theorem InitPool_without_target_witness :
    (configValidate (noTargetOptions 2) "").Url = "" ∧
    ∃ p w1, InitPool rateBreaker (noTargetOptions 2) "" unreachableWorld = .ok (p, none, w1) ∧
      State p = .Success ∧
      p.conn.buf = List.replicate (noTargetOptions 2).Poolsize.toNat none ∧
      p.failCount = (noTargetOptions 2).Poolsize ∧ w1.dials = unreachableWorld.dials :=
  InitPool_without_target rateBreaker (noTargetOptions 2) "" unreachableWorld rfl rfl rfl
    (by decide) (by decide) (by decide) rfl

/-! ## C5 -/

/-- With a URL in the options, an untripped breaker whose gate is open while
untripped and which a success leaves untripped, and a target on which every
attempt succeeds, `connect` returns a valid handle and no error, and the
breaker stays untripped. -/
theorem connect_succeeds {β : Type} (B : Breaker β) (pool : MysqlPool β) (w : World)
    (hgate : ∀ b, B.Tripped b = false →
      (B.Ready b).1 = true ∧ B.Tripped (B.Record (B.Ready b).2.1 true).1 = false)
    (hurl : pool.Configs.Url ≠ "") (hdial : ∀ k, ∃ h, w.dial k = .ok h)
    (ht : B.Tripped pool.cb = false) :
    (∃ h, (connect B pool w).1 = some h) ∧ (connect B pool w).2.1 = none ∧
      B.Tripped (connect B pool w).2.2.1.cb = false := by
  obtain ⟨hg1, hg2⟩ := hgate pool.cb ht
  obtain ⟨h, hh⟩ := hdial w.dials
  unfold connect
  simp [hurl, ht, hg1, hg2, hh]

/-- The loop of `generatePool` on a reachable target: it fills every slot
with a valid handle, reports no error, and leaves failCount, trippedAt, state
and the untripped breaker flag as they were. -/
theorem generateLoop_all_succeed {β : Type} (B : Breaker β) (failFirst : Bool)
    (hgate : ∀ b, B.Tripped b = false →
      (B.Ready b).1 = true ∧ B.Tripped (B.Record (B.Ready b).2.1 true).1 = false) :
    ∀ (n : Nat) (pool : MysqlPool β) (w : World),
      pool.Configs.Url ≠ "" → (∀ k, ∃ h, w.dial k = .ok h) → B.Tripped pool.cb = false →
      pool.conn.closed = false →
      (pool.conn.buf.length : Int) + (n : Int) ≤ pool.conn.cap →
      ∃ p1 w1, generateLoop B failFirst n pool w = .ok (none, p1, w1) ∧
        B.Tripped p1.cb = false ∧ p1.failCount = pool.failCount ∧
        p1.trippedAt = pool.trippedAt ∧ p1.state = pool.state ∧
        p1.regenTryes = pool.regenTryes ∧ p1.conn.cap = pool.conn.cap ∧
        p1.conn.buf.length = pool.conn.buf.length + n ∧
        (∀ x ∈ p1.conn.buf, x ∈ pool.conn.buf ∨ x.isSome = true) ∧
        w1.reads = w.reads := by
  intro n
  induction n with
  | zero =>
    intro pool w _ _ ht _ _
    exact ⟨pool, w, rfl, ht, rfl, rfl, rfl, rfl, rfl, rfl, fun x hx => Or.inl hx, rfl⟩
  | succ n ih =>
    intro pool w hurl hdial ht hopen hroom
    obtain ⟨hc1, hc2, hc3, hc4, hc5, hc6, hc7, hc8, hc9, hc10⟩ := connect_frame B pool w
    obtain ⟨⟨h, hh⟩, hnone, ht1⟩ := connect_succeeds B pool w hgate hurl hdial ht
    have hlt : (pool.conn.buf.length : Int) < pool.conn.cap := by push_cast at hroom; omega
    unfold generateLoop
    simp only [hnone, hh, Chan.send, hc1, hopen, hlt, if_true, if_false, Bool.false_eq_true]
    obtain ⟨p1, w1, hl, f1, f2, f3, f4, f5, f6, f7, f8, f9⟩ :=
      ih { (connect B pool w).2.2.1 with
            conn := { cap := pool.conn.cap, buf := pool.conn.buf ++ [some h],
                      closed := false } }
        (connect B pool w).2.2.2
        (by simp only [hc6]; exact hurl)
        (by simp only [hc9]; exact hdial)
        ht1 rfl
        (by
          simp only [List.length_append, List.length_singleton]
          push_cast at hroom ⊢
          omega)
    simp only [List.length_append, List.length_singleton, List.mem_append,
      List.mem_singleton] at hl f1 f2 f3 f4 f5 f6 f7 f8 f9
    refine ⟨p1, w1, hl, f1, by rw [f2, hc4], by rw [f3, hc3], by rw [f4, hc2], by rw [f5, hc5],
      f6, by rw [f7]; omega, ?_, by rw [f9, hc8]⟩
    intro x hx
    rcases f8 x hx with (hx1 | hx2) | hx3
    · exact Or.inl hx1
    · right
      rw [hx2]
      rfl
    · exact Or.inr hx3

/-- The function `InitPool` on options that carry a URL and a pool size `make`
accepts, with a target on which every attempt succeeds and a breaker that
starts untripped and stays so on successes: no error, state Success,
failCount 0, trippedAt 0, and a queue of exactly as many valid handles as the
pool size. -/
theorem InitPool_reachable_by_url {β : Type} (B : Breaker β) (opts : MysqlOptions)
    (env : String) (w : World)
    (hgate : ∀ b, B.Tripped b = false →
      (B.Ready b).1 = true ∧ B.Tripped (B.Record (B.Ready b).2.1 true).1 = false)
    (hfresh : B.Tripped (B.NewRateBreaker opts.FailRate opts.Universe) = false)
    (hurl : opts.Url ≠ "") (hdial : ∀ k, ∃ h, w.dial k = .ok h) (h0 : 0 ≤ opts.Poolsize)
    (hmake : opts.Poolsize ≤ w.chanLimit) :
    ∃ p w1, InitPool B opts env w = .ok (p, none, w1) ∧ State p = .Success ∧
      p.failCount = 0 ∧ p.trippedAt = 0 ∧ p.conn.buf.length = opts.Poolsize.toNat ∧
      (∀ x ∈ p.conn.buf, x.isSome = true) := by
  have hneg : ¬ (opts.Poolsize < 0 ∨ w.chanLimit < opts.Poolsize) := by omega
  obtain ⟨p1, w1, hl, f1, f2, f3, f4, f5, f6, f7, f8, f9⟩ :=
    generateLoop_all_succeed B false hgate opts.Poolsize.toNat
      { cb := B.NewRateBreaker opts.FailRate opts.Universe,
        conn := { cap := opts.Poolsize, buf := [], closed := false },
        state := .unset, trippedAt := 0, failCount := 0, regenTryes := 0,
        Configs := opts, events := [] } w hurl hdial hfresh rfl
      (by simp only [List.length_nil, Nat.cast_zero, zero_add]; omega)
  simp only [List.length_nil, zero_add, List.not_mem_nil, false_or] at f1 f2 f3 f4 f5 f6 f7 f8 f9
  unfold InitPool generatePool Chan.make
  simp only [hneg, if_false, hl, f1, Bool.false_eq_true]
  exact ⟨_, _, rfl, rfl, f2, f3, f7, f8⟩

/-- C5, on the code. When the options name the target by host (no URL field),
so that the normalized URL is not empty, and every connection attempt would
succeed, `InitPool` with a breaker that starts untripped makes no attempt at
all: it returns no error and state Success, but failCount is the pool size
n > 0 (one `make` accepts) and the queue holds n nil placeholders, because the pool keeps the
options as passed, whose URL field is empty. -/
theorem InitPool_host_target {β : Type} (B : Breaker β) (opts : MysqlOptions)
    (env : String) (w : World) (hurl : opts.Url = "") (hhost : opts.Host ≠ "")
    (_hdial : ∀ k, ∃ h, w.dial k = .ok h) (hn : 0 < opts.Poolsize)
    (hrange : opts.Poolsize < 2 ^ 63) (hmake : opts.Poolsize ≤ w.chanLimit)
    (hfresh : B.Tripped (B.NewRateBreaker opts.FailRate opts.Universe) = false) :
    (configValidate opts env).Url ≠ "" ∧
    ∃ p w1, InitPool B opts env w = .ok (p, none, w1) ∧ State p = .Success ∧
      p.conn.buf = List.replicate opts.Poolsize.toNat none ∧ p.failCount = opts.Poolsize ∧
      p.failCount ≠ 0 ∧ w1.dials = w.dials := by
  constructor
  · rw [configValidate_Url, if_pos hhost]
    exact hostUrl_ne_empty _ _ _ _
  · obtain ⟨p, e, w1, hi, c1, c2, -, -, c5, c6⟩ :=
      InitPool_all_fail B opts env w (Or.inl hurl) (le_of_lt hn) hrange hmake
    obtain ⟨b1, -, b3⟩ := c6 hurl
    obtain ⟨a1, a2, -, -⟩ := c5 (by rw [b1]; exact hfresh)
    subst a1
    exact ⟨p, w1, hi, a2, by rw [c1], c2, by rw [c2]; omega, b3⟩

/-- C5 on the code, at options naming host, user, password and database with
pool size 2 and a reachable target: the normalized URL is not empty, yet the
pool holds two nil placeholders. -/
theorem InitPool_host_target_witness :
    (configValidate (hostOptions 2) "").Url ≠ "" ∧
    ∃ p w1, InitPool rateBreaker (hostOptions 2) "" reachableWorld = .ok (p, none, w1) ∧
      State p = .Success ∧
      p.conn.buf = List.replicate (hostOptions 2).Poolsize.toNat none ∧
      p.failCount = (hostOptions 2).Poolsize ∧ p.failCount ≠ 0 ∧
      w1.dials = reachableWorld.dials :=
  InitPool_host_target rateBreaker (hostOptions 2) "" reachableWorld rfl (by decide)
    (fun _ => ⟨_, rfl⟩) (by decide) (by decide) (by decide) rfl

/-! ## C9 -/

/-- A run whose optional result is present has returned. -/
theorem returns_of_isSome {α : Type} (x : Except Halt α) (h : x.toOption.isSome = true) :
    ∃ a, x = .ok a := by
  cases x with
  | error e => simp [Except.toOption] at h
  | ok a => exact ⟨a, rfl⟩

/-- Writing a value that equals the current state, or that an edge joins to
it, keeps the record tidy. -/
theorem Tidy.write {s t : PoolState} {seen : List PoolState} (h : Tidy s seen)
    (ht : t ≠ .unset) (hedge : t = s ∨ stateEdge s t = true) : Tidy t (t :: seen) := by
  obtain ⟨-, hhead, hall, hchain⟩ := h
  refine ⟨ht, rfl, ?_, ?_⟩
  · intro x hx
    rcases List.mem_cons.mp hx with hx | hx
    · rw [hx]
      exact ht
    · exact hall x hx
  · cases seen with
    | nil => simp at hhead
    | cons a rest =>
      simp only [List.head?_cons, Option.some.injEq] at hhead
      subst hhead
      exact List.chain'_cons.mpr ⟨hedge, hchain⟩

/-- The listener changes nothing of the pool but its state. -/
theorem listenNow_frame {β : Type} :
    ∀ (es : List BreakerEvent) (l : Live β),
      (listenNow es l).pool = { l.pool with state := (listenNow es l).pool.state } := by
  intro es
  induction es with
  | nil =>
    intro l
    rfl
  | cons e es ih =>
    intro l
    cases e
    · simpa [listenNow, Live.write] using ih (l.write .Fail)
    · simpa [listenNow, Live.write] using ih (l.write .Regenerate)
    · simpa [listenNow] using ih l
    · simpa [listenNow, Live.write] using ih (l.write .Success)

/-- Events that only log leave pool and record as they are. -/
theorem listenNow_quiet {β : Type} :
    ∀ (es : List BreakerEvent) (l : Live β), (∀ e ∈ es, e = .BreakerFail) →
      listenNow es l = l := by
  intro es
  induction es with
  | nil =>
    intro l _
    rfl
  | cons e es ih =>
    intro l h
    have he : e = .BreakerFail := h e (List.mem_cons_self _ _)
    subst he
    simp only [listenNow]
    exact ih l (fun x hx => h x (List.mem_cons_of_mem _ hx))

/-- Events Fail and Tripped keep the record tidy and leave the state as it was
or at Fail. -/
theorem listenNow_failures {β : Type} :
    ∀ (es : List BreakerEvent) (l : Live β),
      (∀ e ∈ es, e = .BreakerFail ∨ e = .BreakerTripped) → Tidy l.pool.state l.seen →
      Tidy (listenNow es l).pool.state (listenNow es l).seen ∧
      ((listenNow es l).pool.state = l.pool.state ∨ (listenNow es l).pool.state = .Fail) := by
  intro es
  induction es with
  | nil =>
    intro l _ ht
    exact ⟨ht, Or.inl rfl⟩
  | cons e es ih =>
    intro l h ht
    have hrest : ∀ x ∈ es, x = .BreakerFail ∨ x = .BreakerTripped :=
      fun x hx => h x (List.mem_cons_of_mem _ hx)
    rcases h e (List.mem_cons_self _ _) with he | he
    · subst he
      simp only [listenNow]
      exact ih l hrest ht
    · subst he
      simp only [listenNow]
      have hw : Tidy (l.write .Fail).pool.state (l.write .Fail).seen := by
        simp only [Live.write]
        refine Tidy.write ht (by decide) ?_
        have hs := ht.1
        cases hst : l.pool.state
        · exact absurd hst hs
        · exact Or.inr (by decide)
        · exact Or.inl rfl
        · exact Or.inr (by decide)
      obtain ⟨h1, h2⟩ := ih (l.write .Fail) hrest hw
      refine ⟨h1, Or.inr ?_⟩
      rcases h2 with h2 | h2
      · rw [h2]
        rfl
      · exact h2

/-- The listener taking the events Fail and Tripped that a breaker operation
has just sent: the channel is empty afterwards, the pool differs only in its
state, which is as before or Fail, and the record stays tidy. -/
theorem flush_failures {β : Type} (l : Live β)
    (hev : ∀ e ∈ l.pool.events, e = .BreakerFail ∨ e = .BreakerTripped)
    (ht : Tidy l.pool.state l.seen) :
    Tidy (flush l).pool.state (flush l).seen ∧
    ((flush l).pool.state = l.pool.state ∨ (flush l).pool.state = .Fail) ∧
    (flush l).pool = { l.pool with events := [], state := (flush l).pool.state } ∧
    ((∀ e ∈ l.pool.events, e = .BreakerFail) →
      (flush l).pool.state = l.pool.state ∧ (flush l).seen = l.seen) := by
  unfold flush
  obtain ⟨h1, h2⟩ := listenNow_failures l.pool.events
    { l with pool := { l.pool with events := [] } } hev ht
  refine ⟨h1, h2, ?_, ?_⟩
  · rw [listenNow_frame]
  · intro hq
    rw [listenNow_quiet _ _ hq]
    exact ⟨rfl, rfl⟩

/-- The events one `connect` sends, for an orderly breaker: only Fail and
Tripped, and nothing that writes the state when it returns no error. -/
theorem connect_events {β : Type} (B : Breaker β) (hB : B.Orderly) (pool : MysqlPool β)
    (w : World) :
    ∃ evs, (connect B pool w).2.2.1.events = pool.events ++ evs ∧
      (∀ e ∈ evs, e = .BreakerFail ∨ e = .BreakerTripped) ∧
      ((connect B pool w).2.1 = none → ∀ e ∈ evs, e = .BreakerFail) := by
  obtain ⟨-, -, -, hrec, hready, hok⟩ := hB
  unfold connect
  by_cases hu : pool.Configs.Url = ""
  · exact ⟨[], by simp [hu], by simp, by simp⟩
  · by_cases ht : B.Tripped pool.cb = true
    · exact ⟨[], by simp [hu, ht], by simp, by simp⟩
    · by_cases hg : (B.Ready pool.cb).1 = true
      · cases hd : w.dial w.dials with
        | ok h =>
          refine ⟨(B.Ready pool.cb).2.2 ++ (B.Record (B.Ready pool.cb).2.1 true).2, ?_, ?_, ?_⟩
          · simp [hu, ht, hg, hd]
          · intro e he
            rcases List.mem_append.mp he with he | he
            · exact Or.inl (hready _ e he)
            · exact Or.inl (hok _ e he)
          · intro _ e he
            rcases List.mem_append.mp he with he | he
            · exact hready _ e he
            · exact hok _ e he
        | error err =>
          refine ⟨(B.Ready pool.cb).2.2 ++ (B.Record (B.Ready pool.cb).2.1 false).2, ?_, ?_, ?_⟩
          · simp [hu, ht, hg, hd]
          · intro e he
            rcases List.mem_append.mp he with he | he
            · exact Or.inl (hready _ e he)
            · exact hrec _ e he
          · intro hnone
            simp [hu, ht, hg, hd] at hnone
      · refine ⟨(B.Ready pool.cb).2.2, ?_, ?_, ?_⟩
        · simp [hu, ht, hg]
        · intro e he
          exact Or.inl (hready _ e he)
        · intro hnone
          simp [hu, ht, hg] at hnone


/-- The listener leaves the subscription channel empty. -/
theorem flush_events {β : Type} (l : Live β) : (flush l).pool.events = [] := by
  unfold flush
  rw [listenNow_frame]

/-- The loop of `generatePool`, entered with an empty subscription channel,
leaves it empty. -/
theorem generateLoopLive_events {β : Type} (B : Breaker β) (failFirst : Bool) :
    ∀ (n : Nat) (l : Live β) (w : World) (r : Option GoError × Live β × World),
      generateLoopLive B failFirst n l w = .ok r → l.pool.events = [] →
      r.2.1.pool.events = [] := by
  intro n
  induction n with
  | zero =>
    intro l w r h hev
    simp only [generateLoopLive, Except.ok.injEq] at h
    subst h
    exact hev
  | succ n ih =>
    intro l w r h _
    have hfl := flush_events { l with pool := (connect B l.pool w).2.2.1 }
    unfold generateLoopLive at h
    simp only at h
    split at h
    · split_ifs at h with hff
      · simp only [Except.ok.injEq] at h
        subst h
        simp only
        rw [(setTrippedTime_frame _ _).2.2.2.1]
        exact hfl
      · split at h
        · exact absurd h (by simp)
        · exact ih _ _ r h hfl
    · split at h
      · exact absurd h (by simp)
      · exact ih _ _ r h hfl

/-- The loop of `generatePool` with an orderly breaker, on a pool past its
first build: the record stays tidy, the state ends as it was or at Fail, and
when the loop of a regeneration (`failFirst`) fills every slot, state and
record are exactly as before. -/
theorem generateLoopLive_tidy {β : Type} (B : Breaker β) (hB : B.Orderly) (failFirst : Bool) :
    ∀ (n : Nat) (l : Live β) (w : World) (r : Option GoError × Live β × World),
      generateLoopLive B failFirst n l w = .ok r → l.pool.events = [] →
      Tidy l.pool.state l.seen →
      Tidy r.2.1.pool.state r.2.1.seen ∧
      (r.2.1.pool.state = l.pool.state ∨ r.2.1.pool.state = .Fail) ∧
      (failFirst = true → r.1 = none → r.2.1.pool.state = l.pool.state) := by
  intro n
  induction n with
  | zero =>
    intro l w r h _ ht
    simp only [generateLoopLive, Except.ok.injEq] at h
    subst h
    exact ⟨ht, Or.inl rfl, fun _ _ => rfl⟩
  | succ n ih =>
    intro l w r h hev ht
    obtain ⟨-, hc2, -⟩ := connect_frame B l.pool w
    obtain ⟨evs, he1, he2, he3⟩ := connect_events B hB l.pool w
    rw [hev, List.nil_append] at he1
    have hfl := flush_events { l with pool := (connect B l.pool w).2.2.1 }
    obtain ⟨f1, f2, -, f4⟩ := flush_failures { l with pool := (connect B l.pool w).2.2.1 }
      (by simp only [he1]; exact he2) (by simp only [hc2]; exact ht)
    simp only [hc2] at f2 f4
    simp only [he1] at f4
    unfold generateLoopLive at h
    simp only at h
    split at h
    · split_ifs at h with hff
      · simp only [Except.ok.injEq] at h
        subst h
        simp only
        rw [(setTrippedTime_frame _ _).2.1]
        exact ⟨f1, f2, fun _ hnone => absurd hnone (by simp)⟩
      · split at h
        · exact absurd h (by simp)
        · obtain ⟨g1, g2, -⟩ := ih _ _ r h hfl f1
          simp only at g2
          refine ⟨g1, ?_, fun hf => absurd hf (by simpa using hff)⟩
          rcases g2 with g2 | g2
          · rw [g2]
            exact f2
          · exact Or.inr g2
    · rename_i hnone
      obtain ⟨q1, -⟩ := f4 (he3 hnone)
      split at h
      · exact absurd h (by simp)
      · obtain ⟨g1, g2, g3⟩ := ih _ _ r h hfl f1
        simp only at g2 g3
        refine ⟨g1, ?_, ?_⟩
        · rcases g2 with g2 | g2
          · rw [g2]
            exact f2
          · exact Or.inr g2
        · intro hf hn
          rw [g3 hf hn, q1]


/-- The function `generatePool`, entered with an empty subscription channel,
leaves it empty, and has written Success when it reports no error. -/
theorem generatePoolLive_events {β : Type} (B : Breaker β) (l : Live β) (failFirst : Bool)
    (w : World) (r : Option GoError × Live β × World)
    (h : generatePoolLive B l failFirst w = .ok r) (hev : l.pool.events = []) :
    r.2.1.pool.events = [] ∧ (r.1 = none → r.2.1.pool.state = .Success) := by
  unfold generatePoolLive at h
  split at h
  · exact absurd h (by simp)
  · rename_i ch hmake
    split at h
    · exact absurd h (by simp)
    · rename_i e l1 w1 hl
      have := generateLoopLive_events B failFirst _ _ _ _ hl hev
      simp only [Except.ok.injEq] at h
      subst h
      exact ⟨this, fun hn => absurd hn (by simp)⟩
    · rename_i l1 w1 hl
      have := generateLoopLive_events B failFirst _ _ _ _ hl hev
      simp only at this
      split_ifs at h with ht
      · simp only [Except.ok.injEq] at h
        subst h
        simp only
        rw [(setTrippedTime_frame _ _).2.2.2.1]
        exact ⟨this, fun hn => absurd hn (by simp)⟩
      · simp only [Except.ok.injEq] at h
        subst h
        exact ⟨this, fun _ => rfl⟩

/-- The rebuild of a regeneration with an orderly breaker, entered in state
Regenerate: the record stays tidy. -/
theorem generatePoolLive_tidy {β : Type} (B : Breaker β) (hB : B.Orderly) (l : Live β)
    (w : World) (r : Option GoError × Live β × World)
    (h : generatePoolLive B l true w = .ok r) (hev : l.pool.events = [])
    (ht : Tidy l.pool.state l.seen) (hs : l.pool.state = .Regenerate) :
    Tidy r.2.1.pool.state r.2.1.seen := by
  unfold generatePoolLive at h
  split at h
  · exact absurd h (by simp)
  · rename_i ch hmake
    split at h
    · exact absurd h (by simp)
    · rename_i e l1 w1 hl
      obtain ⟨g1, -, -⟩ := generateLoopLive_tidy B hB true _ _ _ _ hl hev ht
      simp only [Except.ok.injEq] at h
      subst h
      exact g1
    · rename_i l1 w1 hl
      obtain ⟨g1, -, g3⟩ := generateLoopLive_tidy B hB true _ _ _ _ hl hev ht
      have hreg : l1.pool.state = .Regenerate := by
        have := g3 rfl rfl
        simp only at this
        rw [this, hs]
      split_ifs at h with htr
      · simp only [Except.ok.injEq] at h
        subst h
        simp only
        rw [(setTrippedTime_frame _ _).2.1]
        exact g1
      · simp only [Except.ok.injEq] at h
        subst h
        simp only [Live.write]
        exact Tidy.write g1 (by decide) (Or.inr (by rw [hreg]; decide))

/-- The method `regenerate` with an orderly breaker keeps the record tidy and
the subscription channel empty. -/
theorem regenerateLive_tidy {β : Type} (B : Breaker β) (hB : B.Orderly) (l : Live β)
    (w : World) (r : Live β × World) (h : regenerateLive B l w = .ok r)
    (hev : l.pool.events = []) (ht : Tidy l.pool.state l.seen) :
    Tidy r.1.pool.state r.1.seen ∧ r.1.pool.events = [] := by
  unfold regenerateLive at h
  simp only at h
  split_ifs at h with hgate
  · have hfail : l.pool.state = .Fail := hgate.2
    split at h
    · exact absurd h (by simp)
    · rename_i l2 w2 hreset
      unfold resetLive at hreset
      split at hreset
      · exact absurd hreset (by simp)
      · rename_i pool1 w1 hclean
        obtain ⟨c1, -, -, -, c5, -⟩ := clean_frame _ _ _ hclean
        simp only at c1 c5
        simp only [Except.ok.injEq, Prod.mk.injEq] at hreset
        obtain ⟨hl2, -⟩ := hreset
        unfold flush at hl2
        simp only [c5, hev, List.nil_append, hB.1, listenNow, Live.write] at hl2
        have ht2 : Tidy l2.pool.state l2.seen := by
          rw [← hl2]
          have hedge : stateEdge l.pool.state .Regenerate = true := by rw [hfail]; decide
          exact Tidy.write ht (t := .Regenerate) (by decide) (Or.inr hedge)
        have hev2 : l2.pool.events = [] := by
          rw [← hl2]
        have hs2 : l2.pool.state = .Regenerate := by
          rw [← hl2]
        split at h
        · exact absurd h (by simp)
        · rename_i e l3 w3 hgen
          have g1 := generatePoolLive_tidy B hB _ _ _ hgen hev2 ht2 hs2
          obtain ⟨g2, -⟩ := generatePoolLive_events B _ true _ _ hgen hev2
          simp only at g1 g2
          obtain ⟨f1, -, f3, -⟩ := flush_failures
            { l3 with pool := { l3.pool with cb := (B.Trip l3.pool.cb).1,
                                             events := l3.pool.events ++ (B.Trip l3.pool.cb).2 } }
            (by
              simp only [g2, List.nil_append, hB.2.1]
              intro e he
              exact Or.inr (List.mem_singleton.mp he))
            g1
          simp only [Except.ok.injEq] at h
          subst h
          simp only
          rw [(setTrippedTime_frame _ _).2.1, (setTrippedTime_frame _ _).2.2.2.1]
          exact ⟨f1, by rw [f3]⟩
        · rename_i l3 w3 hgen
          have g1 := generatePoolLive_tidy B hB _ _ _ hgen hev2 ht2 hs2
          obtain ⟨g2, -⟩ := generatePoolLive_events B _ true _ _ hgen hev2
          simp only [Except.ok.injEq] at h
          subst h
          exact ⟨g1, g2⟩
  · simp only [Except.ok.injEq] at h
    subst h
    exact ⟨ht, hev⟩


/-- The method `Execute` with an orderly breaker keeps the record tidy and the
subscription channel empty. -/
theorem ExecuteLive_tidy {β : Type} (B : Breaker β) (hB : B.Orderly) (l : Live β)
    (w : World) (callback : Handle → Option GoError) (inTime : Bool)
    (r : Option GoError × Live β × World) (h : ExecuteLive B l w callback inTime = .ok r)
    (hev : l.pool.events = []) (ht : Tidy l.pool.state l.seen) :
    Tidy r.2.1.pool.state r.2.1.seen ∧ r.2.1.pool.events = [] := by
  unfold ExecuteLive at h
  simp only [State] at h
  split_ifs at h with hf hr
  · split at h
    · exact absurd h (by simp)
    · rename_i l1 w1 hreg
      simp only [Except.ok.injEq] at h
      subst h
      exact regenerateLive_tidy B hB l w _ hreg hev ht
  · simp only [Except.ok.injEq] at h
    subst h
    exact ⟨ht, hev⟩
  · unfold popConx at h
    split at h
    · exact absurd h (by simp)
    · rename_i pool1 hpop
      split at hpop
      · exact absurd hpop (by simp)
      · simp only [Except.ok.injEq, Prod.mk.injEq] at hpop
        obtain ⟨-, hp⟩ := hpop
        subst hp
        simp only [Except.ok.injEq] at h
        subst h
        dsimp only
        refine ⟨(flush_failures _ ?_ ?_).1, flush_events _⟩
        · simp only [hev, List.nil_append]
          exact hB.2.2.1 _
        · exact ht
    · rename_i c pool1 hpop
      split at hpop
      · exact absurd hpop (by simp)
      · simp only [Except.ok.injEq, Prod.mk.injEq] at hpop
        obtain ⟨-, hp⟩ := hpop
        subst hp
        have hrec : ∀ e ∈ (if (B.Ready l.pool.cb).1 = true
              then B.Record (B.Ready l.pool.cb).2.1 inTime
              else ((B.Ready l.pool.cb).2.1, [])).2,
            e = .BreakerFail ∨ e = .BreakerTripped := by
          split_ifs
          · cases inTime
            · exact hB.2.2.2.1 _
            · exact fun e he => Or.inl (hB.2.2.2.2.2 _ e he)
          · intro e he
            simp at he
        unfold pushConx at h
        simp only at h
        split at h
        · exact absurd h (by simp)
        · rename_i p3 hpush
          split at hpush
          · exact absurd hpush (by simp)
          · simp only [Except.ok.injEq] at hpush
            subst hpush
            simp only [Except.ok.injEq] at h
            subst h
            dsimp only
            refine ⟨(flush_failures _ ?_ ?_).1, flush_events _⟩
            · simp only [hev, List.nil_append]
              intro e he
              rcases List.mem_append.mp he with he | he
              · exact Or.inl (hB.2.2.2.2.1 _ e he)
              · exact hrec e he
            · exact ht

/-- A sequence of calls of `Execute` with an orderly breaker keeps the record
tidy. -/
theorem executeAll_tidy {β : Type} (B : Breaker β) (hB : B.Orderly) :
    ∀ (calls : List ((Handle → Option GoError) × Bool)) (s r : Live β × World),
      executeAll B calls s = .ok r → s.1.pool.events = [] → Tidy s.1.pool.state s.1.seen →
      Tidy r.1.pool.state r.1.seen := by
  intro calls
  induction calls with
  | nil =>
    intro s r h _ ht
    simp only [executeAll, Except.ok.injEq] at h
    subst h
    exact ht
  | cons call calls ih =>
    intro s r h hev ht
    unfold executeAll at h
    split at h
    · exact absurd h (by simp)
    · rename_i e l1 w1 hex
      obtain ⟨t1, t2⟩ := ExecuteLive_tidy B hB _ _ _ _ _ hex hev ht
      exact ih _ r h t2 t1

/-- The pool `InitPool` returns, the listener running, is in state Success or
Fail and the subscription channel is empty. -/
theorem InitPoolLive_state {β : Type} (B : Breaker β) (opts : MysqlOptions) (env : String)
    (w : World) (r : Live β × Option GoError × World)
    (h : InitPoolLive B opts env w = .ok r) :
    r.1.pool.events = [] ∧ (r.1.pool.state = .Success ∨ r.1.pool.state = .Fail) := by
  unfold InitPoolLive at h
  simp only at h
  split at h
  · exact absurd h (by simp)
  · rename_i e l1 w1 hgen
    obtain ⟨g1, -⟩ := generatePoolLive_events B _ false _ _ hgen rfl
    simp only [Except.ok.injEq] at h
    subst h
    exact ⟨g1, Or.inr rfl⟩
  · rename_i l1 w1 hgen
    obtain ⟨g1, g2⟩ := generatePoolLive_events B _ false _ _ hgen rfl
    simp only [Except.ok.injEq] at h
    subst h
    exact ⟨g1, Or.inl (g2 rfl)⟩

/-- The rate breaker is orderly. -/
theorem rateBreaker_orderly : rateBreaker.Orderly := by
  have hfail : ∀ b : RateState, ∀ e ∈ (RateState.fail b).2,
      e = .BreakerFail ∨ e = .BreakerTripped := by
    intro b e he
    unfold RateState.fail at he
    simp only at he
    split_ifs at he
    · simp only [List.mem_cons, List.mem_singleton, List.not_mem_nil, or_false] at he
      exact he
    · simp only [List.mem_singleton] at he
      exact Or.inl he
  refine ⟨fun _ => rfl, fun _ => rfl, hfail, ?_, ?_, ?_⟩
  · intro b e he
    exact hfail b e he
  · intro b e he
    simp [rateBreaker] at he
  · intro b e he
    simp [rateBreaker] at he

/-- C9, amended. Take a breaker that sends Reset on a reset, Tripped on a trip,
Fail (and possibly Tripped) on a recorded failure and nothing that writes the
state otherwise, and let the listener apply every event as soon as it is sent.
Then in every run of `InitPool` followed by calls of `Execute`, every value the
state takes from the return of `InitPool` on is one of Success, Fail,
Regenerate, the latest of them is the current state, and any two consecutive
values are equal or joined by one of the edges Success -> Fail,
Fail -> Regenerate, Regenerate -> Success, Regenerate -> Fail. -/
theorem state_changes_after_InitPool {β : Type} (B : Breaker β) (hB : B.Orderly)
    (opts : MysqlOptions) (env : String) (w : World)
    (calls : List ((Handle → Option GoError) × Bool)) (l : Live β) (w1 : World)
    (h : runLive B opts env w calls = .ok (l, w1)) :
    (∀ s ∈ l.seen, s = .Success ∨ s = .Fail ∨ s = .Regenerate) ∧
    l.seen.head? = some (State l.pool) ∧
    List.Chain' (fun new old => new = old ∨ stateEdge old new = true) l.seen := by
  unfold runLive at h
  split at h
  · exact absurd h (by simp)
  · rename_i l0 e w0 hinit
    obtain ⟨i1, i2⟩ := InitPoolLive_state B opts env w _ hinit
    simp only at i1 i2
    have ht0 : Tidy l0.pool.state [l0.pool.state] := by
      refine ⟨?_, rfl, ?_, List.chain'_singleton _⟩
      · rcases i2 with i2 | i2 <;> rw [i2] <;> decide
      · intro x hx
        rw [List.mem_singleton.mp hx]
        rcases i2 with i2 | i2 <;> rw [i2] <;> decide
    obtain ⟨t1, t2, t3, t4⟩ :=
      executeAll_tidy B hB calls ({ l0 with seen := [l0.pool.state] }, w0) (l, w1) h i1 ht0
    refine ⟨?_, t2, t4⟩
    intro s hs
    have hne := t3 s hs
    cases s
    · exact absurd rfl hne
    · exact Or.inl rfl
    · exact Or.inr (Or.inl rfl)
    · exact Or.inr (Or.inr rfl)

/-- C9 amended, at a run that takes all four edges: the first build fails on
an unreachable target (Fail), the first call runs a regeneration that fails
(Regenerate, then Fail, written twice), the second call runs one that succeeds
(Regenerate, then Success), and the third call times out and trips the breaker
(Fail). -/
theorem state_changes_after_InitPool_witness :
    ∃ l w1, runLive rateBreaker (urlOptions 2 (.fin 1 (-2)) 2 0) "" recoveringWorld
        [(noop, true), (noop, true), (noop, false)] = .ok (l, w1) ∧
      l.seen = [.Fail, .Success, .Regenerate, .Fail, .Fail, .Regenerate, .Fail] ∧
      (∀ s ∈ l.seen, s = .Success ∨ s = .Fail ∨ s = .Regenerate) ∧
      l.seen.head? = some (State l.pool) ∧
      List.Chain' (fun new old => new = old ∨ stateEdge old new = true) l.seen := by
  obtain ⟨⟨l, w1⟩, hs⟩ := returns_of_isSome
    (runLive rateBreaker (urlOptions 2 (.fin 1 (-2)) 2 0) "" recoveringWorld
      [(noop, true), (noop, true), (noop, false)]) (by decide)
  have hseen : (runLive rateBreaker (urlOptions 2 (.fin 1 (-2)) 2 0) "" recoveringWorld
      [(noop, true), (noop, true), (noop, false)]).toOption.map (fun s => s.1.seen) =
      some [.Fail, .Success, .Regenerate, .Fail, .Fail, .Regenerate, .Fail] := by
    decide
  rw [hs] at hseen
  simp only [Except.toOption, Option.map_some', Option.some.injEq] at hseen
  exact ⟨l, w1, hs, hseen,
    state_changes_after_InitPool rateBreaker rateBreaker_orderly
      (urlOptions 2 (.fin 1 (-2)) 2 0) "" recoveringWorld
      [(noop, true), (noop, true), (noop, false)] l w1 hs⟩

/-- C9 as stated fails: the edge Regenerate -> Fail, which is not an edge of
the cycle, is taken. A pool of 2 is built against an unreachable target (state
Fail); the next `Execute` runs a regeneration, whose reset sends Reset (the
listener writes Regenerate) and whose failed rebuild trips the breaker (the
listener writes Fail, twice). -/
theorem regenerate_to_fail_edge :
    (runLive rateBreaker (urlOptions 2 (.fin 1 (-2)) 2 0) "" unreachableWorld
        [(noop, true)]).toOption.map (fun s => s.1.seen) =
      some [.Fail, .Fail, .Regenerate, .Fail] ∧
    cycleEdge .Regenerate .Fail = false ∧
    ¬ List.Chain' (fun new old => new = old ∨ cycleEdge old new = true)
        [PoolState.Fail, .Fail, .Regenerate, .Fail] := by
  refine ⟨by decide, by decide, ?_⟩
  intro hchain
  have hpair := (List.chain'_cons.mp (List.chain'_cons.mp hchain).2).1
  exact absurd hpair (by decide)

end Gomysql
